import Mathlib

/-!
# Verification of the workday-scraper core against its specification

Shallow embedding of the relevant parts of the `workday_scraper` Python
package:

* `workday_scraper/rate_limiter.py` — `AdaptiveRateLimiter` (delays are
  modelled as exact rationals; the Python code uses IEEE doubles, but every
  claim is about the algebraic update rules, which the rationals capture).
* `workday_scraper/db_manager.py` and `workday_scraper/status_tracking.py` —
  the persisted job lifecycle (`save_jobs` / `save_job` /
  `JobStatusManager`).  The SQLite tables are modelled as lists of rows,
  SQL `UPDATE ... WHERE` as list maps, timestamps as natural numbers.
* `workday_scraper/jsonld_extractor.py` — URL discovery
  (`get_all_job_urls`) and the concurrent detail fetcher
  (`extract_job_details_from_jsonld`).  The network and the rendered pages
  are modelled as explicit oracles passed to the functions.
-/

namespace WorkdayScraper

/-! ## Rate limiter (`rate_limiter.py`, class `AdaptiveRateLimiter`) -/

/-- State of one `AdaptiveRateLimiter` instance (the fields touched by
`success` / `failure`; the timing fields `last_request_time`,
`total_requests`, `total_wait_time` only matter for `wait`, which is
real-time behaviour outside these claims). -/
structure RLState where
  current_delay : ℚ
  min_delay : ℚ
  max_delay : ℚ
  backoff_factor : ℚ
  success_threshold : ℕ
  success_count : ℕ
  failure_count : ℕ
  deriving Repr, DecidableEq

/-- `AdaptiveRateLimiter.__init__`: `current_delay` is set to
`initial_delay` as given — the constructor performs no clamping. -/
def RLState.init (initial_delay min_delay max_delay backoff_factor : ℚ)
    (success_threshold : ℕ) : RLState :=
  { current_delay := initial_delay
    min_delay := min_delay
    max_delay := max_delay
    backoff_factor := backoff_factor
    success_threshold := success_threshold
    success_count := 0
    failure_count := 0 }

/-- `AdaptiveRateLimiter.success`: increment the success counter, reset the
failure counter; once the threshold is reached divide the delay by 1.2
(floored at `min_delay`) and reset the counter. -/
def RLState.success (s : RLState) : RLState :=
  let s := { s with success_count := s.success_count + 1, failure_count := 0 }
  if s.success_threshold ≤ s.success_count then
    { s with current_delay := max (s.current_delay / (6/5)) s.min_delay
             success_count := 0 }
  else s

/-- `AdaptiveRateLimiter.failure`: increment the failure counter, reset the
success counter, multiply the delay by `multiplier ^ min(failure_count, 3)`
and cap it at `max_delay`.  `error_type` is the optional string argument. -/
def RLState.failure (s : RLState) (error_type : Option String) : RLState :=
  let s := { s with failure_count := s.failure_count + 1, success_count := 0 }
  let multiplier : ℚ :=
    if error_type = some "rate_limit" then 3
    else if error_type = some "timeout" then 2
    else s.backoff_factor
  let failure_multiplier := multiplier ^ (min s.failure_count 3)
  { s with current_delay := min (s.current_delay * failure_multiplier) s.max_delay }

/-- One external call to the limiter. -/
inductive RLEvent where
  | succ : RLEvent
  | fail (error_type : Option String) : RLEvent
  deriving Repr, DecidableEq

def RLState.step (s : RLState) : RLEvent → RLState
  | .succ => s.success
  | .fail et => s.failure et

/-- Apply a sequence of `report_success` / `report_failure` calls. -/
def RLState.run (s : RLState) (evs : List RLEvent) : RLState :=
  evs.foldl RLState.step s

/-! ## Job lifecycle persistence (`db_manager.py`, `status_tracking.py`)

The SQLite database is modelled as explicit lists of rows.  `datetime.now()`
is abstracted as a `now : ℕ` parameter threaded through the calls (all the
timestamps written during one `save_jobs` call are interchangeable for the
claims below).  SQL `UPDATE ... WHERE` statements become `List.map` with a
guard, `INSERT` appends a row, and `AUTOINCREMENT` ids come from explicit
`next…Id` counters.  Each `conn.commit()` boundary is noted where it
matters (claim C4). -/

/-- One row of the `companies` table. -/
structure CompanyRow where
  id : ℕ
  name : String
  url : String
  created_at : ℕ
  deriving Repr, DecidableEq

/-- One row of the `jobs` table. -/
structure JobRow where
  id : ℕ
  job_id : String
  title : String
  description : String
  date_posted : String
  employment_type : String
  location : String
  company_id : ℕ
  url : String
  timestamp : ℕ
  created_at : ℕ
  status : String
  last_seen : ℕ
  missed_scrapes : ℕ
  deriving Repr, DecidableEq

/-- One row of the `job_status_history` table (`job_id` is the internal
`jobs.id`, as in the schema's foreign key). -/
structure HistoryRow where
  job_id : ℕ
  status : String
  changed_at : ℕ
  reason : String
  deriving Repr, DecidableEq

/-- The committed database state. -/
structure DBState where
  companies : List CompanyRow
  jobs : List JobRow
  history : List HistoryRow
  nextCompanyId : ℕ
  nextJobId : ℕ
  deriving Repr, DecidableEq

/-- An observed job dictionary as handed to `save_jobs` (the fields read by
`db_manager.py`; `job_data.get(key, '')` on a missing key yields `''`, so an
absent field is modelled by the empty string). -/
structure JobData where
  job_id : String
  title : String
  description : String
  date_posted : String
  employment_type : String
  location : String
  company : String
  company_url : String
  url : String
  deriving Repr, DecidableEq

/-- `SELECT id FROM companies WHERE name = ?` (first match). -/
def DBState.lookupCompany (s : DBState) (name : String) : Option ℕ :=
  (s.companies.find? (fun c => c.name = name)).map (·.id)

/-- `DatabaseManager.get_or_create_company`. -/
def DBState.get_or_create_company (s : DBState) (name url : String) (now : ℕ) :
    ℕ × DBState :=
  match s.lookupCompany name with
  | some cid => (cid, s)
  | none =>
      (s.nextCompanyId,
       { s with
          companies := s.companies ++
            [{ id := s.nextCompanyId, name := name, url := url, created_at := now }]
          nextCompanyId := s.nextCompanyId + 1 })

/-- `JobStatusManager.mark_company_jobs_as_missed`:
`UPDATE jobs SET missed_scrapes = missed_scrapes + 1
 WHERE company_id = ? AND status = 'active'`. -/
def DBState.mark_company_jobs_as_missed (s : DBState) (company_id : ℕ) : DBState :=
  { s with jobs := s.jobs.map (fun r =>
      if r.company_id = company_id ∧ r.status = "active" then
        { r with missed_scrapes := r.missed_scrapes + 1 }
      else r) }

/-- `JobStatusManager.update_job_last_seen`:
`UPDATE jobs SET last_seen = ?, missed_scrapes = 0
 WHERE job_id = ? AND company_id = ?`. -/
def DBState.update_job_last_seen (s : DBState) (job_id : String)
    (company_id : ℕ) (now : ℕ) : DBState :=
  { s with jobs := s.jobs.map (fun r =>
      if r.job_id = job_id ∧ r.company_id = company_id then
        { r with last_seen := now, missed_scrapes := 0 }
      else r) }

/-- `JobStatusManager.update_job_status`: update `status` and `last_seen` of
the job row with internal id `job_id` and insert a history row.  In the
Python code both `execute`s happen before a single `conn.commit()`, so the
committed state changes in one step (see `update_job_status_tx` for the
failure-injected version). -/
def DBState.update_job_status (s : DBState) (job_id : ℕ)
    (status reason : String) (now : ℕ) : DBState :=
  { s with
      jobs := s.jobs.map (fun r =>
        if r.id = job_id then { r with status := status, last_seen := now } else r)
      history := s.history ++
        [{ job_id := job_id, status := status, changed_at := now, reason := reason }] }

/-- `JobStatusManager.reactivate_job`. -/
def DBState.reactivate_job (s : DBState) (job_id : ℕ) (now : ℕ) : DBState :=
  s.update_job_status job_id "active" "Job reappeared in listings" now

/-- The `SELECT id FROM jobs WHERE company_id = ? AND status = 'active'
AND missed_scrapes >= 2` at the top of `mark_stale_jobs_as_closed`. -/
def DBState.staleIds (s : DBState) (company_id : ℕ) : List ℕ :=
  (s.jobs.filter (fun r =>
    r.company_id = company_id ∧ r.status = "active" ∧ 2 ≤ r.missed_scrapes)).map (·.id)

/-- `JobStatusManager.mark_stale_jobs_as_closed`: select the ids of rows
with `company_id = ?`, `status = 'active'`, `missed_scrapes >= 2`, then run
`update_job_status id 'closed' 'Not found in 2 consecutive scrapes'` on each. -/
def DBState.mark_stale_jobs_as_closed (s : DBState) (company_id : ℕ) (now : ℕ) :
    DBState :=
  (s.staleIds company_id).foldl (fun st i =>
    st.update_job_status i "closed" "Not found in 2 consecutive scrapes" now) s

/-- `SELECT id, status FROM jobs WHERE job_id = ? AND company_id = ?`
(`fetchone`, i.e. first match). -/
def DBState.findJob (s : DBState) (job_id : String) (company_id : ℕ) :
    Option JobRow :=
  s.jobs.find? (fun r => r.job_id = job_id ∧ r.company_id = company_id)

/-- `DatabaseManager.save_job`.  Returns the `bool` result together with the
resulting committed state.  The new-job branch issues the `INSERT` plus
`conn.commit()` first and only then calls `update_job_status` (its own
transaction) — claim C4 hangs on this ordering, made explicit in
`save_job_tx` below. -/
def DBState.save_job (s : DBState) (job : JobData) (company_id : ℕ) (now : ℕ) :
    Bool × DBState :=
  if job.job_id = "" then (false, s)
  else
    match s.findJob job.job_id company_id with
    | some row =>
        let s :=
          if row.status = "closed" then s.reactivate_job row.id now else s
        (true, s.update_job_last_seen job.job_id company_id now)
    | none =>
        let newId := s.nextJobId
        let s₁ : DBState :=
          { s with
              jobs := s.jobs ++
                [{ id := newId, job_id := job.job_id, title := job.title
                   description := job.description, date_posted := job.date_posted
                   employment_type := job.employment_type, location := job.location
                   company_id := company_id, url := job.url, timestamp := now
                   created_at := now, status := "active", last_seen := now
                   missed_scrapes := 0 }]
              nextJobId := newId + 1 }
        (true, s₁.update_job_status newId "active" "Initial posting" now)

/-- The grouping loop at the top of `DatabaseManager.save_jobs`: jobs with
an empty company name are counted as failed, the rest are grouped by
company name in first-appearance order (Python dicts preserve insertion
order). -/
def groupByCompany (jobs : List JobData) : List (String × List JobData) :=
  jobs.foldl (fun acc j =>
    if j.company = "" then acc
    else if acc.any (fun g => g.1 = j.company) then
      acc.map (fun g => if g.1 = j.company then (g.1, g.2 ++ [j]) else g)
    else acc ++ [(j.company, [j])]) []

/-- The per-company body of `DatabaseManager.save_jobs`: get-or-create the
company, `mark_company_jobs_as_missed`, save each job (on success also
`update_job_last_seen` again), then `mark_stale_jobs_as_closed`.
Accumulates `(saved, failed)`. -/
def DBState.save_company_jobs (s : DBState) (company_name : String)
    (company_jobs : List JobData) (now : ℕ) : ℕ × ℕ × DBState :=
  let url := (company_jobs.head?.map (·.company_url)).getD ""
  let cid := (s.get_or_create_company company_name url now).1
  let s₁ := (s.get_or_create_company company_name url now).2
  let s₂ := s₁.mark_company_jobs_as_missed cid
  let acc := company_jobs.foldl
    (fun (acc : ℕ × ℕ × DBState) j =>
      if (acc.2.2.save_job j cid now).1 then
        (acc.1 + 1, acc.2.1,
          (acc.2.2.save_job j cid now).2.update_job_last_seen j.job_id cid now)
      else (acc.1, acc.2.1 + 1, (acc.2.2.save_job j cid now).2))
    (0, 0, s₂)
  (acc.1, acc.2.1, acc.2.2.mark_stale_jobs_as_closed cid now)

/-- `DatabaseManager.save_jobs` — the reconcile operation.  Returns
`(saved, failed, state)`. -/
def DBState.save_jobs (s : DBState) (jobs : List JobData) (now : ℕ) :
    ℕ × ℕ × DBState :=
  (groupByCompany jobs).foldl
    (fun (acc : ℕ × ℕ × DBState) g =>
      (acc.1 + (acc.2.2.save_company_jobs g.1 g.2 now).1,
       acc.2.1 + (acc.2.2.save_company_jobs g.1 g.2 now).2.1,
       (acc.2.2.save_company_jobs g.1 g.2 now).2.2))
    (0, (jobs.filter (fun j => j.company = "")).length, s)

/-- The empty database (state after `_create_tables` on a fresh file;
SQLite `AUTOINCREMENT` starts at 1). -/
def DBState.empty : DBState :=
  { companies := [], jobs := [], history := [], nextCompanyId := 1, nextJobId := 1 }

/-- Well-formedness of a database state: internal job ids are distinct and
below the autoincrement counter (they are the `INTEGER PRIMARY KEY
AUTOINCREMENT` column of `jobs`). -/
def DBState.WF (s : DBState) : Prop :=
  (s.jobs.map (·.id)).Nodup ∧ ∀ r ∈ s.jobs, r.id < s.nextJobId

instance (s : DBState) : Decidable s.WF := by
  unfold DBState.WF; infer_instance

/-! ### Failure-injected transactional variants (claim C4)

`PersistenceError`s are modelled by an injection flag: a failing SQL
statement raises, the `except` branch calls `conn.rollback()`, and the
committed state reverts to the last `conn.commit()`.  Since both `execute`s
of `update_job_status` precede its single `commit`, a failure at either
one yields the same committed state — the state at the previous commit. -/

/-- `JobStatusManager.update_job_status` with an injected persistence
failure.  Returns `(ok, state)`: on failure the transaction is rolled back
and the committed state is unchanged (the Python code re-raises after
`conn.rollback()`). -/
def DBState.update_job_status_tx (s : DBState) (failInject : Bool)
    (job_id : ℕ) (status reason : String) (now : ℕ) : Bool × DBState :=
  if failInject then (false, s)
  else (true, s.update_job_status job_id status reason now)

/-- The new-job branch of `DatabaseManager.save_job` with a persistence
failure injected into the trailing `update_job_status` call.  The `INSERT`
of the row is followed directly by `conn.commit()`, so when the subsequent
history transaction fails (and `save_job`'s `except` handler swallows the
exception, rolls back the — already empty — pending transaction, and
returns `False`), the inserted row survives in the committed state. -/
def DBState.save_job_tx (s : DBState) (failHistory : Bool) (job : JobData)
    (company_id : ℕ) (now : ℕ) : Bool × DBState :=
  if job.job_id = "" then (false, s)
  else
    match s.findJob job.job_id company_id with
    | some row =>
        let s :=
          if row.status = "closed" then s.reactivate_job row.id now else s
        (true, s.update_job_last_seen job.job_id company_id now)
    | none =>
        let newId := s.nextJobId
        let s₁ : DBState :=
          { s with
              jobs := s.jobs ++
                [{ id := newId, job_id := job.job_id, title := job.title
                   description := job.description, date_posted := job.date_posted
                   employment_type := job.employment_type, location := job.location
                   company_id := company_id, url := job.url, timestamp := now
                   created_at := now, status := "active", last_seen := now
                   missed_scrapes := 0 }]
              nextJobId := newId + 1 }
        match s₁.update_job_status_tx failHistory newId "active" "Initial posting" now with
        | (true, s₂) => (true, s₂)
        | (false, _) => (false, s₁)

/-- Status of the job row with internal id `i` (unique under `WF`). -/
def DBState.statusOf (s : DBState) (i : ℕ) : Option String :=
  (s.jobs.find? (fun r => r.id = i)).map (·.status)

/-- Missed-scrape counter of the job row with internal id `i`. -/
def DBState.missedOf (s : DBState) (i : ℕ) : Option ℕ :=
  (s.jobs.find? (fun r => r.id = i)).map (·.missed_scrapes)

/-- The history rows recorded for internal job id `i`. -/
def DBState.historyOf (s : DBState) (i : ℕ) : List HistoryRow :=
  s.history.filter (fun h => h.job_id = i)

/-- The job row with internal id `i`, if any (first match, unique under
`WF`). -/
def DBState.rowById (s : DBState) (i : ℕ) : Option JobRow :=
  s.jobs.find? (fun r => r.id = i)

/-- The company id that `get_or_create_company` yields for `name` (the
existing id, else the fresh autoincrement value).  Independent of the
`url`/`now` arguments. -/
def DBState.companyIdFor (s : DBState) (name : String) : ℕ :=
  (s.lookupCompany name).getD s.nextCompanyId

/-- The `job_id`s of the observed jobs that `save_job` accepts (a job
dictionary with a missing or empty `job_id` is skipped). -/
def validIds (jobs : List JobData) : List String :=
  (jobs.filter (fun j => j.job_id ≠ "")).map (·.job_id)

/-- The state transformation of one iteration of the per-job loop inside
`save_jobs`: `save_job`, then on success `update_job_last_seen` again. -/
def DBState.obsStep (cid now : ℕ) (st : DBState) (j : JobData) : DBState :=
  if (st.save_job j cid now).1 then
    (st.save_job j cid now).2.update_job_last_seen j.job_id cid now
  else (st.save_job j cid now).2

/-- A concrete database: one company `acme` and one `closed` job `J1`
(missed twice before being closed). -/
def dbClosedJob : DBState :=
  { companies := [⟨1, "acme", "http://a", 0⟩]
    jobs := [⟨1, "J1", "t", "", "", "", "", 1, "u", 0, 0, "closed", 0, 2⟩]
    history := [], nextCompanyId := 2, nextJobId := 2 }

/-- A concrete database: one company `acme` and one freshly-seen `active`
job `J1` (`missed_scrapes = 0`). -/
def dbFreshJob : DBState :=
  { companies := [⟨1, "acme", "http://a", 0⟩]
    jobs := [⟨1, "J1", "t", "", "", "", "", 1, "u", 0, 0, "active", 0, 0⟩]
    history := [], nextCompanyId := 2, nextJobId := 2 }

/-- A concrete database: one company `acme` and one `active` job `J1`. -/
def dbActiveJob : DBState :=
  { companies := [⟨1, "acme", "http://a", 0⟩]
    jobs := [⟨1, "J1", "t", "", "", "", "", 1, "u", 0, 0, "active", 0, 2⟩]
    history := [], nextCompanyId := 2, nextJobId := 2 }

/-! ## Concurrent detail fetcher (`jsonld_extractor.py`,
`extract_job_details_from_jsonld`)

The network is modelled by an oracle `f : String → ℕ → Option JobDetails`:
`f url k` is the outcome of attempt number `k` (`retry_count`) for `url` —
`none` collapses every transient failure (non-200 status, timeout,
connection error, missing or unparsable JSON-LD block), `some d` is a
successful parse.  Batching (50 URLs per batch) and the `concurrency`
semaphore only affect scheduling, not the value computed: within a batch
`asyncio.gather` returns results in task order and batches are processed in
order, so the result sequence is in input order (proved below as
`processBatches_eq_map`).  The per-request and per-batch wall-clock
timeouts are real-time behaviour and are not modelled. -/

/-- The job dictionary built from a JSON-LD block (both in
`_fetch_and_extract` and in the Playwright fallback). -/
structure JobDetails where
  title : String
  job_id : String
  description : String
  date_posted : String
  employment_type : String
  location : String
  company : String
  url : String
  deriving Repr, DecidableEq

/-- `_fetch_and_extract(url, retry_count)` with `remaining = max_retries -
retry_count` retries left: try attempt `retry_count`; on failure retry with
`retry_count + 1` while retries remain, else give up (`none` — the Python
code appends to `failed_urls` and returns an error dict here). -/
def fetchAttempts (f : String → ℕ → Option JobDetails) (url : String) :
    ℕ → ℕ → Option JobDetails
  | retry_count, remaining =>
    match f url retry_count with
    | some d => some d
    | none =>
        match remaining with
        | 0 => none
        | r + 1 => fetchAttempts f url (retry_count + 1) r

/-- One full `fetch_and_extract(url)` call: attempts `0 .. max_retries`. -/
def fetch_and_extract (f : String → ℕ → Option JobDetails) (max_retries : ℕ)
    (url : String) : Option JobDetails :=
  fetchAttempts f url 0 max_retries

/-- The batch loop of `extract_job_details_from_jsonld`: slices of
`batch_size = 50` URLs, each gathered in order. -/
def processBatches (f : String → ℕ → Option JobDetails) (max_retries : ℕ) :
    List String → List (String × Option JobDetails)
  | [] => []
  | url :: rest =>
      ((url :: rest).take 50).map (fun u => (u, fetch_and_extract f max_retries u)) ++
        processBatches f max_retries ((url :: rest).drop 50)
  termination_by l => l.length
  decreasing_by simp; omega

/-- `all_results` after the batch loop. -/
def allResults (f : String → ℕ → Option JobDetails) (max_retries : ℕ)
    (urls : List String) : List (String × Option JobDetails) :=
  processBatches f max_retries urls

/-- `valid_results = [job for job in all_results if 'error' not in job]`. -/
def validResults (f : String → ℕ → Option JobDetails) (max_retries : ℕ)
    (urls : List String) : List JobDetails :=
  (allResults f max_retries urls).filterMap Prod.snd

/-- The `failed_urls` list accumulated inside `_fetch_and_extract` (URLs
whose retries were exhausted).  The accumulation order among concurrent
tasks is scheduler-dependent in Python; the model uses input order. -/
def failedUrls (f : String → ℕ → Option JobDetails) (max_retries : ℕ)
    (urls : List String) : List String :=
  ((allResults f max_retries urls).filter (fun p => p.2 = none)).map Prod.fst

/-- `extract_with_playwright_fallback`: per URL, render the page and try to
extract a record; failures are logged and skipped.  The oracle
`g : String → Option JobDetails` is the outcome of the rendering-based
extraction (its two internal sub-strategies — JSON-LD via the rendered DOM,
then title + details innerHTML — are collapsed into the oracle). -/
def extract_with_playwright_fallback (g : String → Option JobDetails)
    (urls : List String) : List JobDetails :=
  urls.filterMap g

/-- `extract_job_details_from_jsonld(job_urls, concurrency, max_retries)`.
`concurrency` bounds the semaphore only and does not influence the computed
value; it is kept as an (unused) argument of the contract.  The fallback
threshold `len(failed_urls) > len(job_urls) * 0.10` is modelled exactly as
`10 * |failed| > |urls|` (`0.10` is an IEEE double in Python; the claims
stay away from the rounding boundary). -/
def extract_job_details_from_jsonld (f : String → ℕ → Option JobDetails)
    (g : String → Option JobDetails) (urls : List String)
    (concurrency : ℕ := 10) (max_retries : ℕ := 3) : List JobDetails :=
  if failedUrls f max_retries urls ≠ [] ∧
      10 * (failedUrls f max_retries urls).length > urls.length then
    validResults f max_retries urls ++
      extract_with_playwright_fallback g
        ((failedUrls f max_retries urls).take
          (min (failedUrls f max_retries urls).length 50))
  else validResults f max_retries urls

/-! ## Pagination walker (`jsonld_extractor.py`, `get_all_job_urls`)

The browser session is modelled by a `ListingSite` record holding what each
navigation would observe: the parsed pagination total, the number of title
elements on the first page, and the per-page lists of (already absolutized)
detail hrefs for the main walk and for the two fallback approaches.  A page
has an enabled next-page control iff a further page of content exists.
`list(set(...))` in approach 2 enumerates a Python `set` whose order is
hash-dependent (and hash-randomized across processes); the enumeration is
therefore a parameter `pySet` of the model. -/

structure ListingSite where
  /-- `int(match.group(1))` from the pagination label, through the chain of
  regex patterns and alternative selectors; `none` when no pattern matched. -/
  paginationTotal : Option ℕ
  /-- `len(page.query_selector_all("[data-automation-id='jobTitle']"))`. -/
  titlesOnFirstPage : ℕ
  /-- Hrefs per page of the main walk. -/
  pages : List (List String)
  /-- An `itemsPerPage` control with a 50/100 option exists (approach 1). -/
  altAvailable : Bool
  /-- Hrefs per page of the approach-1 re-walk (larger page size). -/
  altPages : List (List String)
  /-- `base_url.split('?')[0] != base_url` (approach 2 applies). -/
  hasParams : Bool
  /-- Hrefs per page of the approach-2 walk (query parameters stripped). -/
  p2Pages : List (List String)
  deriving Repr, DecidableEq

/-- `expected_total_jobs` as used in `if expected_total_jobs:` — Python
truthiness makes a parsed `0` behave like `None`. -/
def ListingSite.expectedTotal (site : ListingSite) : Option ℕ :=
  match site.paginationTotal with
  | some 0 => none
  | x => x

/-- `jobs_per_page`: the number of detected title elements, defaulting to
20 when none are detectable. -/
def ListingSite.jobsPerPage (site : ListingSite) : ℕ :=
  if site.titlesOnFirstPage = 0 then 20 else site.titlesOnFirstPage

/-- `expected_pages = (expected_total_jobs + jobs_per_page - 1) //
jobs_per_page` (only computed when the total is truthy). -/
def ListingSite.expectedPages (site : ListingSite) : Option ℕ :=
  site.expectedTotal.map (fun t => (t + site.jobsPerPage - 1) / site.jobsPerPage)

/-- `max_pages`: the hard safety limit 100, tightened to
`min(expected_pages + 1, 100)` when `expected_pages` is truthy. -/
def ListingSite.maxPages (site : ListingSite) : ℕ :=
  match site.expectedPages with
  | some ep => if ep = 0 then 100 else min (ep + 1) 100
  | none => 100

/-- The page loop (`while has_next_page and page_num <= max_pages`),
starting at `page_num` with `fuel = max_pages + 1 - page_num` (so `fuel` is
positive exactly when `page_num ≤ max_pages` holds): collect the current
page's hrefs, advance while a next-page control exists.  Returns the
concatenated hrefs in visit order together with the number of pages
visited. -/
def walkLoop (pages : List (List String)) : ℕ → ℕ → List String × ℕ
  | _, 0 => ([], 0)
  | page_num, fuel + 1 =>
      let content := pages.getD (page_num - 1) []
      if page_num < pages.length then
        let rest := walkLoop pages (page_num + 1) fuel
        (content ++ rest.1, rest.2 + 1)
      else (content, 1)

/-- A full walk from page 1 (fuel `max_pages + 1 - 1 = max_pages`). -/
def walk (pages : List (List String)) (max_pages : ℕ) : List String × ℕ :=
  walkLoop pages 1 max_pages

/-- The final dedup loop of `get_all_job_urls` (`seen` set plus
`unique_urls.append`), with its accumulators explicit. -/
def dedupFirstSeenAux : List String → List String → List String → List String
  | _, acc, [] => acc
  | seen, acc, u :: rest =>
      if u ∈ seen then dedupFirstSeenAux seen acc rest
      else dedupFirstSeenAux (u :: seen) (acc ++ [u]) rest

/-- "Remove duplicates while preserving order" over `job_urls`. -/
def dedupFirstSeen (l : List String) : List String :=
  dedupFirstSeenAux [] [] l

/-- Specification-side definition of "URLs in first-seen order with no
duplicates" (the wording of P3): keep each URL's first occurrence, in
order.  Compared against the code's `dedupFirstSeen` below. -/
def firstSeen : List String → List String
  | [] => []
  | u :: rest => u :: (firstSeen rest).filter (fun v => v ≠ u)

/-- Result of a `get_all_job_urls` run: the returned URL list, the hrefs in
the order the walker saw them across every page it navigated, and the page
visit counts of the three walk loops. -/
structure WalkResult where
  urls : List String
  stream : List String
  visitedMain : ℕ
  visitedAlt : ℕ
  visitedP2 : ℕ
  deriving Repr, DecidableEq

/-- `get_all_job_urls`: main walk, then — when the collected count is below
90 % of a truthy expected total — approach 1 (larger page size re-walk,
kept only if it found strictly more) and approach 2 (query parameters
stripped, up to 5 pages, merged through `list(set(...))` and kept only if
larger), followed by the order-preserving dedup.  The `0.9` thresholds are
the exact `10·found < 9·total`. -/
def get_all_job_urls (pySet : List String → List String) (site : ListingSite) :
    WalkResult :=
  let mp := site.maxPages
  let mainUrls := (walk site.pages mp).1
  let vMain := (walk site.pages mp).2
  match site.expectedTotal with
  | none => ⟨dedupFirstSeen mainUrls, mainUrls, vMain, 0, 0⟩
  | some tot =>
      if mainUrls.length < tot ∧ 10 * mainUrls.length < 9 * tot then
        -- approach 1: the re-walk only happens when the itemsPerPage
        -- control and a 50/100 option are present; it replaces `job_urls`
        -- only if it collected strictly more
        let altUrls := (walk site.altPages mp).1
        let urls1 :=
          if site.altAvailable ∧ altUrls.length > mainUrls.length
          then altUrls else mainUrls
        let altStream := if site.altAvailable then altUrls else []
        let vAlt := if site.altAvailable then (walk site.altPages mp).2 else 0
        -- approach 2: re-checked against the (possibly updated) count
        if 10 * urls1.length < 9 * tot then
          if site.hasParams then
            let p2Urls := (walk site.p2Pages 5).1
            let combined := pySet (urls1 ++ p2Urls)
            let final := if combined.length > urls1.length then combined else urls1
            ⟨dedupFirstSeen final, mainUrls ++ altStream ++ p2Urls, vMain, vAlt,
             (walk site.p2Pages 5).2⟩
          else ⟨dedupFirstSeen urls1, mainUrls ++ altStream, vMain, vAlt, 0⟩
        else ⟨dedupFirstSeen urls1, mainUrls ++ altStream, vMain, vAlt, 0⟩
      else ⟨dedupFirstSeen mainUrls, mainUrls, vMain, 0, 0⟩

/-- Total pages navigated across the main walk and both fallback walks. -/
def WalkResult.totalVisited (r : WalkResult) : ℕ :=
  r.visitedMain + r.visitedAlt + r.visitedP2

/-- A concrete listing site used for evaluating the walker: pagination
label announcing 1000 jobs, one title element on the first page, and more
than 100 pages of content available on the main walk, the approach-1
re-walk, and the approach-2 walk. -/
def siteOverCap : ListingSite :=
  { paginationTotal := some 1000, titlesOnFirstPage := 1,
    pages := List.replicate 101 ["a"], altAvailable := true,
    altPages := List.replicate 101 ["a"], hasParams := true,
    p2Pages := List.replicate 6 ["a"] }

/-- A concrete listing site: pagination label "1 - 20 of 45 jobs" and 20
title elements detected on the first page. -/
def site45 : ListingSite :=
  { paginationTotal := some 45, titlesOnFirstPage := 20, pages := [],
    altAvailable := false, altPages := [], hasParams := false, p2Pages := [] }

/-- A concrete listing site: 4 jobs announced, one main page showing only
`a, b`, and an approach-1 re-walk page showing all four jobs in the order
`b, c, d, a`. -/
def siteReorder : ListingSite :=
  { paginationTotal := some 4, titlesOnFirstPage := 2,
    pages := [["a", "b"]], altAvailable := true,
    altPages := [["b", "c", "d", "a"]], hasParams := false, p2Pages := [] }

/-- A concrete listing site whose main walk finds everything (2 of 2
jobs), so no fallback fires. -/
def siteComplete : ListingSite :=
  { paginationTotal := some 2, titlesOnFirstPage := 2,
    pages := [["a", "b", "a"]], altAvailable := false, altPages := [],
    hasParams := false, p2Pages := [] }

/-- The configuration fields are never changed by `success`/`failure`. -/
theorem RLState.step_config (s : RLState) (e : RLEvent) :
    (s.step e).min_delay = s.min_delay ∧ (s.step e).max_delay = s.max_delay ∧
    (s.step e).backoff_factor = s.backoff_factor := by
  cases e with
  | succ =>
      simp only [RLState.step, RLState.success]
      split <;> simp
  | fail et =>
      simp only [RLState.step, RLState.failure]
      simp

/-- Bounds are preserved by a single step, provided the configuration is
sane (`0 ≤ min_delay ≤ max_delay`, `backoff_factor ≥ 1`). -/
theorem RLState.step_bounds (s : RLState) (e : RLEvent)
    (hmin0 : 0 ≤ s.min_delay) (hminmax : s.min_delay ≤ s.max_delay)
    (hbf : 1 ≤ s.backoff_factor)
    (hlo : s.min_delay ≤ s.current_delay) (hhi : s.current_delay ≤ s.max_delay) :
    s.min_delay ≤ (s.step e).current_delay ∧
      (s.step e).current_delay ≤ s.max_delay := by
  have hd0 : 0 ≤ s.current_delay := le_trans hmin0 hlo
  cases e with
  | succ =>
      simp only [RLState.step, RLState.success]
      split
      · constructor
        · exact le_max_right _ _
        · apply max_le _ hminmax
          calc s.current_delay / (6/5) ≤ s.current_delay := by
                apply div_le_self hd0; norm_num
            _ ≤ s.max_delay := hhi
      · exact ⟨hlo, hhi⟩
  | fail et =>
      simp only [RLState.step, RLState.failure]
      constructor
      · apply le_min _ hminmax
        have hm1 : (1:ℚ) ≤ (if et = some "rate_limit" then (3:ℚ)
            else if et = some "timeout" then 2 else s.backoff_factor) := by
          split
          · norm_num
          · split
            · norm_num
            · exact hbf
        have hpow : (1:ℚ) ≤ (if et = some "rate_limit" then (3:ℚ)
            else if et = some "timeout" then 2 else s.backoff_factor)
              ^ (min (s.failure_count + 1) 3) :=
          one_le_pow₀ hm1
        calc s.min_delay ≤ s.current_delay := hlo
          _ = s.current_delay * 1 := (mul_one _).symm
          _ ≤ s.current_delay * _ := by
              exact mul_le_mul_of_nonneg_left hpow hd0
      · exact min_le_right _ _

/-- Run-level bounds invariant, for any start state with sane configuration
and in-bounds delay. -/
theorem RLState.run_bounds (evs : List RLEvent) (s : RLState)
    (hmin0 : 0 ≤ s.min_delay) (hminmax : s.min_delay ≤ s.max_delay)
    (hbf : 1 ≤ s.backoff_factor)
    (hlo : s.min_delay ≤ s.current_delay) (hhi : s.current_delay ≤ s.max_delay) :
    s.min_delay ≤ (s.run evs).current_delay ∧
      (s.run evs).current_delay ≤ s.max_delay ∧
      (s.run evs).min_delay = s.min_delay ∧
      (s.run evs).max_delay = s.max_delay ∧
      (s.run evs).backoff_factor = s.backoff_factor := by
  induction evs generalizing s with
  | nil => exact ⟨hlo, hhi, rfl, rfl, rfl⟩
  | cons e rest ih =>
      have hcfg := RLState.step_config s e
      have hstep := RLState.step_bounds s e hmin0 hminmax hbf hlo hhi
      have := ih (s.step e) (hcfg.1 ▸ hmin0) (hcfg.1 ▸ hcfg.2.1 ▸ hminmax)
        (hcfg.2.2 ▸ hbf) (hcfg.1 ▸ hstep.1) (hcfg.2.1 ▸ hstep.2)
      simpa only [RLState.run, List.foldl_cons, hcfg.1, hcfg.2.1, hcfg.2.2]
        using this

/-! ## Fetcher lemmas -/

/-- Batching 50 at a time and gathering in order computes the same result
sequence as a single in-order pass. -/
theorem processBatches_eq_map (f : String → ℕ → Option JobDetails)
    (mr : ℕ) (l : List String) :
    processBatches f mr l = l.map (fun u => (u, fetch_and_extract f mr u)) := by
  induction l using processBatches.induct f mr with
  | case1 => simp [processBatches]
  | case2 url rest ih =>
      rw [processBatches, ih, ← List.map_append, List.take_append_drop]

theorem validResults_eq (f : String → ℕ → Option JobDetails) (mr : ℕ)
    (urls : List String) :
    validResults f mr urls = urls.filterMap (fetch_and_extract f mr) := by
  rw [validResults, allResults, processBatches_eq_map, List.filterMap_map]
  rfl

theorem mem_validResults (f : String → ℕ → Option JobDetails) (mr : ℕ)
    (urls : List String) (d : JobDetails) :
    d ∈ validResults f mr urls ↔
      ∃ u ∈ urls, fetch_and_extract f mr u = some d := by
  rw [validResults_eq]
  exact List.mem_filterMap

theorem failedUrls_eq (f : String → ℕ → Option JobDetails) (mr : ℕ)
    (urls : List String) :
    failedUrls f mr urls =
      urls.filter (fun u => fetch_and_extract f mr u = none) := by
  rw [failedUrls, allResults, processBatches_eq_map, List.filter_map,
    List.map_map]
  simp [Function.comp_def]

theorem mem_failedUrls (f : String → ℕ → Option JobDetails) (mr : ℕ)
    (urls : List String) (u : String) :
    u ∈ failedUrls f mr urls ↔
      u ∈ urls ∧ fetch_and_extract f mr u = none := by
  rw [failedUrls_eq]
  simp

/-- C5.  Amended: `extract_job_details_from_jsonld` returns the list of
successfully extracted records together with whatever the fallback
recovered — and only those; the residual failed-URL list is tracked
internally (it drives the fallback and is logged) but is not part of the
return value.  Every successful per-URL extraction appears in the result,
and every returned record comes either from a successful extraction of an
input URL or from the fallback applied to a failed URL. -/
theorem C5_returned_records (f : String → ℕ → Option JobDetails)
    (g : String → Option JobDetails) (urls : List String) (conc mr : ℕ) :
    (∀ u ∈ urls, ∀ d, fetch_and_extract f mr u = some d →
       d ∈ extract_job_details_from_jsonld f g urls conc mr) ∧
    (∀ d ∈ extract_job_details_from_jsonld f g urls conc mr,
       (∃ u ∈ urls, fetch_and_extract f mr u = some d) ∨
       ∃ u ∈ failedUrls f mr urls, g u = some d) := by
  constructor
  · intro u hu d hd
    have hv : d ∈ validResults f mr urls :=
      (mem_validResults f mr urls d).2 ⟨u, hu, hd⟩
    unfold extract_job_details_from_jsonld
    split
    · exact List.mem_append_left _ hv
    · exact hv
  · intro d hd
    have hsplit : d ∈ validResults f mr urls ∨
        ∃ u ∈ failedUrls f mr urls, g u = some d := by
      revert hd
      unfold extract_job_details_from_jsonld
      split
      · intro hd
        rcases List.mem_append.1 hd with h | h
        · exact Or.inl h
        · refine Or.inr ?_
          rcases List.mem_filterMap.1 h with ⟨u, hu, hgu⟩
          exact ⟨u, List.mem_of_mem_take hu, hgu⟩
      · intro hd
        exact Or.inl hd
    rcases hsplit with h | h
    · exact Or.inl ((mem_validResults f mr urls d).1 h)
    · exact Or.inr h

/-- C5 (witness): a concrete instantiation of `C5_returned_records`. -/
theorem C5_returned_records_witness :
    ("u1" ∈ ["u1", "u2"] ∧
      fetch_and_extract (fun u _ => if u = "u1" then
          some ⟨"t", "j", "", "", "", "", "c", "u1"⟩ else none) 3 "u1" =
        some ⟨"t", "j", "", "", "", "", "c", "u1"⟩) ∧
    (⟨"t", "j", "", "", "", "", "c", "u1"⟩ : JobDetails) ∈
      extract_job_details_from_jsonld
        (fun u _ => if u = "u1" then
          some ⟨"t", "j", "", "", "", "", "c", "u1"⟩ else none)
        (fun _ => none) ["u1", "u2"] 10 3 :=
  ⟨⟨by decide, by decide⟩,
    (C5_returned_records _ _ ["u1", "u2"] 10 3).1 "u1" (by decide) _ (by decide)⟩

/-- C5 (counterexample to the claim as stated): on a run where every URL
fails, the failed-URL list is `["u"]` but the value returned to the caller
is just the bare record list `[]` — the contract's second component
(`failed_urls`) is not part of the function's return value. -/
theorem C5_counterexample :
    failedUrls (fun _ _ => none) 0 ["u"] = ["u"] ∧
    extract_job_details_from_jsonld (fun _ _ => none) (fun _ => none)
      ["u"] 10 0 = [] := by
  constructor
  · rw [failedUrls_eq]
    decide
  · unfold extract_job_details_from_jsonld
    rw [validResults_eq, failedUrls_eq]
    decide

/-- C6.  If strictly more than 10% of the input URLs failed after retries,
the Playwright fallback runs on the first `min(len(failed), 50)` failed
URLs — a subset of the failed list of size at most 50 — and everything it
recovers is appended to the returned result; at or below 10% the result is
exactly the successfully extracted records. -/
theorem C6_fallback_threshold (f : String → ℕ → Option JobDetails)
    (g : String → Option JobDetails) (urls : List String) (conc mr : ℕ) :
    (10 * (failedUrls f mr urls).length > urls.length →
       extract_job_details_from_jsonld f g urls conc mr =
         validResults f mr urls ++
           extract_with_playwright_fallback g
             ((failedUrls f mr urls).take (min (failedUrls f mr urls).length 50)) ∧
       ((failedUrls f mr urls).take (min (failedUrls f mr urls).length 50)).length ≤ 50 ∧
       (∀ u ∈ (failedUrls f mr urls).take (min (failedUrls f mr urls).length 50),
          u ∈ failedUrls f mr urls) ∧
       (∀ d ∈ extract_with_playwright_fallback g
             ((failedUrls f mr urls).take (min (failedUrls f mr urls).length 50)),
          d ∈ extract_job_details_from_jsonld f g urls conc mr)) ∧
    (10 * (failedUrls f mr urls).length ≤ urls.length →
       extract_job_details_from_jsonld f g urls conc mr =
         validResults f mr urls) := by
  constructor
  · intro hgt
    have hne : failedUrls f mr urls ≠ [] := by
      intro h
      rw [h] at hgt
      simp at hgt
    have hres : extract_job_details_from_jsonld f g urls conc mr =
        validResults f mr urls ++
          extract_with_playwright_fallback g
            ((failedUrls f mr urls).take (min (failedUrls f mr urls).length 50)) := by
      unfold extract_job_details_from_jsonld
      rw [if_pos ⟨hne, hgt⟩]
    refine ⟨hres, ?_, ?_, ?_⟩
    · simp only [List.length_take]
      omega
    · intro u hu
      exact List.mem_of_mem_take hu
    · intro d hd
      rw [hres]
      exact List.mem_append_right _ hd
  · intro hle
    unfold extract_job_details_from_jsonld
    rw [if_neg]
    rintro ⟨-, h2⟩
    omega

/-- C6 (witness): 10 URLs of which 2 always fail (20% > 10%): the fallback
recovers one record, which is merged into the result. -/
theorem C6_fallback_threshold_witness :
    (10 * (failedUrls (fun u _ => if u = "u0" ∨ u = "u1" then none else
        some ⟨"t", u, "", "", "", "", "c", u⟩) 1
        ["u0", "u1", "u2", "u3", "u4", "u5", "u6", "u7", "u8", "u9"]).length >
      (["u0", "u1", "u2", "u3", "u4", "u5", "u6", "u7", "u8", "u9"] : List String).length) ∧
    extract_job_details_from_jsonld
        (fun u _ => if u = "u0" ∨ u = "u1" then none else
          some ⟨"t", u, "", "", "", "", "c", u⟩)
        (fun u => if u = "u0" then some ⟨"t", "r", "", "", "", "", "c", u⟩ else none)
        ["u0", "u1", "u2", "u3", "u4", "u5", "u6", "u7", "u8", "u9"] 10 1 =
      validResults (fun u _ => if u = "u0" ∨ u = "u1" then none else
          some ⟨"t", u, "", "", "", "", "c", u⟩) 1
        ["u0", "u1", "u2", "u3", "u4", "u5", "u6", "u7", "u8", "u9"] ++
        extract_with_playwright_fallback
          (fun u => if u = "u0" then some ⟨"t", "r", "", "", "", "", "c", u⟩ else none)
          ((failedUrls (fun u _ => if u = "u0" ∨ u = "u1" then none else
              some ⟨"t", u, "", "", "", "", "c", u⟩) 1
              ["u0", "u1", "u2", "u3", "u4", "u5", "u6", "u7", "u8", "u9"]).take
            (min (failedUrls (fun u _ => if u = "u0" ∨ u = "u1" then none else
              some ⟨"t", u, "", "", "", "", "c", u⟩) 1
              ["u0", "u1", "u2", "u3", "u4", "u5", "u6", "u7", "u8", "u9"]).length 50)) := by
  have h : 10 * (failedUrls (fun u _ => if u = "u0" ∨ u = "u1" then none else
      some ⟨"t", u, "", "", "", "", "c", u⟩) 1
      ["u0", "u1", "u2", "u3", "u4", "u5", "u6", "u7", "u8", "u9"]).length >
      (["u0", "u1", "u2", "u3", "u4", "u5", "u6", "u7", "u8", "u9"] : List String).length := by
    rw [failedUrls_eq]
    decide
  exact ⟨h, ((C6_fallback_threshold _ _ _ 10 1).1 h).1⟩

/-! ## Lifecycle: simple facts -/

/-- C10.  `save_job` on a job dictionary whose `job_id` is absent or empty
returns `False` and leaves the database untouched. -/
theorem C10_missing_job_id_skipped (s : DBState) (j : JobData) (cid now : ℕ)
    (h : j.job_id = "") : s.save_job j cid now = (false, s) := by
  simp [DBState.save_job, h]

/-- C10 (witness). -/
theorem C10_missing_job_id_skipped_witness :
    DBState.empty.save_job ⟨"", "t", "", "", "", "", "acme", "", "u"⟩ 1 0 =
      (false, DBState.empty) :=
  C10_missing_job_id_skipped DBState.empty _ 1 0 rfl

/-! ## Rate limiter claim theorems (C7) -/

/-- C7 (counterexample to the claim as stated): the constructor does not
clamp `initial_delay`.  With `initial_delay = 100`, `min_delay = 0.5`,
`max_delay = 30`, the delay after a `report_success` call is still `100`,
outside `[min_delay, max_delay]`. -/
theorem C7_counterexample :
    ((RLState.init 100 (1/2) 30 (3/2) 10).run [RLEvent.succ]).current_delay = 100 ∧
    ¬ ((RLState.init 100 (1/2) 30 (3/2) 10).run [RLEvent.succ]).current_delay ≤
        (RLState.init 100 (1/2) 30 (3/2) 10).max_delay := by
  have h : ((RLState.init 100 (1/2) 30 (3/2) 10).run [RLEvent.succ]).current_delay
      = 100 := by
    simp [RLState.init, RLState.run, RLState.step, RLState.success]
  refine ⟨h, ?_⟩
  rw [h]
  norm_num [RLState.init]

/-- C7.  Amended: provided the configured `initial_delay` already lies in
`[min_delay, max_delay]` (the constructor itself performs no clamping),
with `0 ≤ min_delay` and `backoff_factor ≥ 1`, `current_delay` stays within
`[min_delay, max_delay]` after every sequence of `report_success` /
`report_failure` calls. -/
theorem C7_delay_bounds (initial_delay min_delay max_delay backoff_factor : ℚ)
    (success_threshold : ℕ) (evs : List RLEvent)
    (hmin0 : 0 ≤ min_delay) (hlo : min_delay ≤ initial_delay)
    (hhi : initial_delay ≤ max_delay) (hbf : 1 ≤ backoff_factor) :
    min_delay ≤
      ((RLState.init initial_delay min_delay max_delay backoff_factor
        success_threshold).run evs).current_delay ∧
    ((RLState.init initial_delay min_delay max_delay backoff_factor
        success_threshold).run evs).current_delay ≤ max_delay := by
  have h := RLState.run_bounds evs
    (RLState.init initial_delay min_delay max_delay backoff_factor success_threshold)
    hmin0 (le_trans hlo hhi) hbf hlo hhi
  exact ⟨h.1, h.2.1⟩

/-- C7 (witness): default configuration, one failure then one success. -/
theorem C7_delay_bounds_witness :
    ((0:ℚ) ≤ 1/2 ∧ (1/2:ℚ) ≤ 1 ∧ (1:ℚ) ≤ 30 ∧ (1:ℚ) ≤ 3/2) ∧
    ((1/2:ℚ) ≤
      ((RLState.init 1 (1/2) 30 (3/2) 10).run
        [RLEvent.fail none, RLEvent.succ]).current_delay ∧
    ((RLState.init 1 (1/2) 30 (3/2) 10).run
        [RLEvent.fail none, RLEvent.succ]).current_delay ≤ 30) :=
  ⟨⟨by norm_num, by norm_num, by norm_num, by norm_num⟩,
    C7_delay_bounds 1 (1/2) 30 (3/2) 10 [RLEvent.fail none, RLEvent.succ]
      (by norm_num) (by norm_num) (by norm_num) (by norm_num)⟩

/-! ## Pagination walker lemmas and claim C9 -/

/-- The page loop visits at most `fuel` pages. -/
theorem walkLoop_visited_le (pages : List (List String)) :
    ∀ (fuel page_num : ℕ), (walkLoop pages page_num fuel).2 ≤ fuel := by
  intro fuel
  induction fuel with
  | zero => intro page_num; simp [walkLoop]
  | succ n ih =>
      intro page_num
      simp only [walkLoop]
      split
      · exact Nat.succ_le_succ (ih (page_num + 1))
      · omega

/-- `max_pages` never exceeds the hard cap of 100. -/
theorem maxPages_le_100 (site : ListingSite) : site.maxPages ≤ 100 := by
  unfold ListingSite.maxPages
  split
  · split
    · exact le_refl 100
    · exact min_le_right _ _
  · exact le_refl 100

set_option maxRecDepth 40000 in
/-- C9 (counterexample to the claim as stated): the 100-page cap bounds
each walk loop separately, not the whole discovery run.  On a site whose
pagination promises 1000 jobs at 1 per page, with more than 100 pages
available on every walk, both fallback approaches fire and the walker
navigates `100 + 100 + 5 = 205` pages in total. -/
theorem C9_counterexample :
    (get_all_job_urls id siteOverCap).totalVisited = 205 ∧
    ¬ (get_all_job_urls id siteOverCap).totalVisited ≤ 100 := by
  constructor
  · decide
  · decide

/-- C9.  Amended: when the pagination total is parsed (truthy),
`expected_pages` is exactly the integer ceiling of
`expected_total / jobs_per_page` (with `jobs_per_page ≥ 1` always), and
each pagination loop — the main walk, the approach-1 re-walk, and the
approach-2 walk — visits at most 100 pages (the approach-2 loop at most
5); a run that triggers the fallbacks can navigate more than 100 pages in
total (see the counterexample). -/
theorem C9_expected_pages (site : ListingSite) (tot : ℕ)
    (h : site.expectedTotal = some tot) :
    1 ≤ site.jobsPerPage ∧
    (∃ q, site.expectedPages = some q ∧
       site.jobsPerPage * (q - 1) < tot ∧ tot ≤ site.jobsPerPage * q) ∧
    ∀ pySet, (get_all_job_urls pySet site).visitedMain ≤ 100 ∧
      (get_all_job_urls pySet site).visitedAlt ≤ 100 ∧
      (get_all_job_urls pySet site).visitedP2 ≤ 5 := by
  have hjpp : 1 ≤ site.jobsPerPage := by
    unfold ListingSite.jobsPerPage
    split
    · norm_num
    · omega
  have htot : 1 ≤ tot := by
    unfold ListingSite.expectedTotal at h
    rcases hp : site.paginationTotal with - | n
    · rw [hp] at h; exact absurd h (by simp)
    · rcases n with - | n
      · rw [hp] at h; exact absurd h (by simp)
      · rw [hp] at h
        simp only [Option.some.injEq] at h
        omega
  refine ⟨hjpp, ?_, ?_⟩
  · refine ⟨(tot + site.jobsPerPage - 1) / site.jobsPerPage, ?_, ?_, ?_⟩
    · unfold ListingSite.expectedPages
      rw [h]
      rfl
    · -- division facts
      have hpos : 0 < site.jobsPerPage := hjpp
      have hdm := Nat.div_add_mod (tot + site.jobsPerPage - 1) site.jobsPerPage
      have hmod := Nat.mod_lt (tot + site.jobsPerPage - 1) hpos
      rcases hq : (tot + site.jobsPerPage - 1) / site.jobsPerPage with - | q'
      · rw [hq] at hdm
        omega
      · rw [hq] at hdm
        simp only [Nat.add_sub_cancel]
        have : site.jobsPerPage * (q' + 1) = site.jobsPerPage * q' + site.jobsPerPage :=
          Nat.mul_succ _ _
        omega
    · have hpos : 0 < site.jobsPerPage := hjpp
      have hdm := Nat.div_add_mod (tot + site.jobsPerPage - 1) site.jobsPerPage
      have hmod := Nat.mod_lt (tot + site.jobsPerPage - 1) hpos
      omega
  · intro pySet
    have hmp := maxPages_le_100 site
    have hmain := walkLoop_visited_le site.pages site.maxPages 1
    have halt := walkLoop_visited_le site.altPages site.maxPages 1
    have hp2 := walkLoop_visited_le site.p2Pages 5 1
    unfold get_all_job_urls
    rw [h]
    dsimp only [walk]
    refine ⟨?_, ?_, ?_⟩ <;>
      · repeat' split
        all_goals dsimp only
        all_goals omega

/-- C9 (witness): pagination label "1 - 20 of 45 jobs" with 20 titles on
the first page gives `expected_pages = 3` (the ceiling of 45/20), and the
caps hold. -/
theorem C9_expected_pages_witness :
    site45.expectedTotal = some 45 ∧
    site45.expectedPages = some 3 ∧
    (1 ≤ site45.jobsPerPage ∧
    (∃ q, site45.expectedPages = some q ∧
       site45.jobsPerPage * (q - 1) < 45 ∧ 45 ≤ site45.jobsPerPage * q) ∧
    ∀ pySet, (get_all_job_urls pySet site45).visitedMain ≤ 100 ∧
      (get_all_job_urls pySet site45).visitedAlt ≤ 100 ∧
      (get_all_job_urls pySet site45).visitedP2 ≤ 5) :=
  ⟨rfl, rfl, C9_expected_pages site45 45 rfl⟩

/-! ## Lifecycle: row-level lemmas -/

/-- `find?` through a `map` whose function preserves the predicate. -/
theorem find?_map_pres {α : Type} (l : List α) (f : α → α) (p : α → Bool)
    (hf : ∀ r, p (f r) = p r) :
    (l.map f).find? p = (l.find? p).map f := by
  have hpf : p ∘ f = p := funext hf
  rw [List.find?_map, hpf]

theorem rowById_update_job_status (s : DBState) (i j : ℕ)
    (st reason : String) (now : ℕ) :
    (s.update_job_status j st reason now).rowById i =
      (s.rowById i).map (fun r =>
        if r.id = j then { r with status := st, last_seen := now } else r) := by
  unfold DBState.rowById DBState.update_job_status
  apply find?_map_pres
  intro r
  by_cases hij : r.id = j <;> simp [hij]

theorem rowById_update_job_last_seen (s : DBState) (i : ℕ) (jid : String)
    (cid now : ℕ) :
    (s.update_job_last_seen jid cid now).rowById i =
      (s.rowById i).map (fun r =>
        if r.job_id = jid ∧ r.company_id = cid then
          { r with last_seen := now, missed_scrapes := 0 } else r) := by
  unfold DBState.rowById DBState.update_job_last_seen
  apply find?_map_pres
  intro r
  by_cases hij : r.job_id = jid ∧ r.company_id = cid <;> simp [hij]

theorem rowById_mark_missed (s : DBState) (i cid : ℕ) :
    (s.mark_company_jobs_as_missed cid).rowById i =
      (s.rowById i).map (fun r =>
        if r.company_id = cid ∧ r.status = "active" then
          { r with missed_scrapes := r.missed_scrapes + 1 } else r) := by
  unfold DBState.rowById DBState.mark_company_jobs_as_missed
  apply find?_map_pres
  intro r
  by_cases hij : r.company_id = cid ∧ r.status = "active" <;> simp [hij]

theorem statusOf_eq_rowById (s : DBState) (i : ℕ) :
    s.statusOf i = (s.rowById i).map (·.status) := rfl

theorem missedOf_eq_rowById (s : DBState) (i : ℕ) :
    s.missedOf i = (s.rowById i).map (·.missed_scrapes) := rfl

theorem history_update_job_status (s : DBState) (j : ℕ) (st reason : String)
    (now : ℕ) :
    (s.update_job_status j st reason now).history =
      s.history ++ [⟨j, st, now, reason⟩] := rfl

theorem history_update_job_last_seen (s : DBState) (jid : String)
    (cid now : ℕ) :
    (s.update_job_last_seen jid cid now).history = s.history := rfl

/-- C3.  An observed job whose `(job_id, company_id)` pair matches an
existing `closed` row is reactivated by `save_job`: the row's status
becomes `active` again and a history entry with reason "Job reappeared in
listings" is appended, in the same call. -/
theorem C3_reactivation (s : DBState) (j : JobData) (cid now : ℕ)
    (row : JobRow) (hid : j.job_id ≠ "")
    (hfind : s.findJob j.job_id cid = some row)
    (hclosed : row.status = "closed") :
    (s.save_job j cid now).1 = true ∧
    (s.save_job j cid now).2.statusOf row.id = some "active" ∧
    (⟨row.id, "active", now, "Job reappeared in listings"⟩ : HistoryRow) ∈
      (s.save_job j cid now).2.history := by
  have hsj : s.save_job j cid now =
      (true, ((s.reactivate_job row.id now).update_job_last_seen j.job_id cid
        now)) := by
    unfold DBState.save_job
    rw [if_neg (by simpa using hid), hfind]
    dsimp only
    rw [if_pos hclosed]
  rw [hsj]
  refine ⟨rfl, ?_, ?_⟩
  · -- there is a row with id `row.id` in `s`
    have hmem : row ∈ s.jobs := List.mem_of_find?_eq_some hfind
    have hsome : ∃ r₀, s.rowById row.id = some r₀ ∧ r₀.id = row.id := by
      have : (s.jobs.find? (fun r => r.id = row.id)).isSome := by
        rw [List.find?_isSome]
        exact ⟨row, hmem, by simp⟩
      rcases Option.isSome_iff_exists.1 this with ⟨r₀, hr₀⟩
      refine ⟨r₀, hr₀, ?_⟩
      have := List.find?_some hr₀
      simpa using this
    rcases hsome with ⟨r₀, hr₀, hr₀id⟩
    rw [statusOf_eq_rowById, rowById_update_job_last_seen,
      DBState.reactivate_job, rowById_update_job_status, hr₀]
    simp only [Option.map_some', Option.some.injEq]
    rw [if_pos hr₀id]
    split <;> rfl
  · rw [DBState.reactivate_job]
    simp only [history_update_job_last_seen, history_update_job_status]
    exact List.mem_append_right _ (by simp)

/-- C3 (witness): a database with one closed job; observing it again
reactivates it. -/
theorem C3_reactivation_witness :
    (dbClosedJob.findJob "J1" 1 =
        some ⟨1, "J1", "t", "", "", "", "", 1, "u", 0, 0, "closed", 0, 2⟩) ∧
    ((dbClosedJob.save_job
        ⟨"J1", "t", "", "", "", "", "acme", "http://a", "u"⟩ 1 7).1 = true ∧
    (dbClosedJob.save_job
        ⟨"J1", "t", "", "", "", "", "acme", "http://a", "u"⟩ 1 7).2.statusOf 1 =
      some "active" ∧
    (⟨1, "active", 7, "Job reappeared in listings"⟩ : HistoryRow) ∈
      (dbClosedJob.save_job
        ⟨"J1", "t", "", "", "", "", "acme", "http://a", "u"⟩ 1 7).2.history) :=
  ⟨by decide,
    C3_reactivation dbClosedJob
      ⟨"J1", "t", "", "", "", "", "acme", "http://a", "u"⟩ 1 7
      ⟨1, "J1", "t", "", "", "", "", 1, "u", 0, 0, "closed", 0, 2⟩
      (by decide) (by decide) rfl⟩

/-! ## Claim C4: atomicity of status changes -/

/-- C4.  Amended: the status changes performed through
`JobStatusManager.update_job_status` (reactivation and closure) are atomic
with their history entries — on an injected persistence failure the
committed state is exactly the pre-call state, and on success both the
status field and the history row are written.  (The initial-posting path
is *not* atomic; see the counterexample.) -/
theorem C4_update_status_atomic (s : DBState) (failInject : Bool) (i : ℕ)
    (st reason : String) (now : ℕ) :
    ((s.update_job_status_tx failInject i st reason now).1 = false →
       (s.update_job_status_tx failInject i st reason now).2 = s) ∧
    ((s.update_job_status_tx failInject i st reason now).1 = true →
       (s.update_job_status_tx failInject i st reason now).2.history =
         s.history ++ [⟨i, st, now, reason⟩] ∧
       (s.update_job_status_tx failInject i st reason now).2.statusOf i =
         (s.statusOf i).map (fun _ => st)) := by
  unfold DBState.update_job_status_tx
  cases failInject with
  | true => exact ⟨fun _ => rfl, fun h => by simp at h⟩
  | false =>
      simp only [Bool.false_eq_true, if_false]
      refine ⟨fun h => by simp at h, fun _ => ⟨rfl, ?_⟩⟩
      rw [statusOf_eq_rowById, statusOf_eq_rowById, rowById_update_job_status]
      cases hrow : s.rowById i with
      | none => rfl
      | some r₀ =>
          have hr₀id : r₀.id = i := by
            have := List.find?_some hrow
            simpa using this
          simp only [Option.map_some', Option.some.injEq]
          rw [if_pos hr₀id]

/-- C4 (witness): a concrete closure transition on a one-job database,
with an injected failure (rolled back wholesale). -/
theorem C4_update_status_atomic_witness :
    ((dbActiveJob.update_job_status_tx
          true 1 "closed" "Not found in 2 consecutive scrapes" 9).1 = false →
      (dbActiveJob.update_job_status_tx
          true 1 "closed" "Not found in 2 consecutive scrapes" 9).2 =
        dbActiveJob) ∧
    ((dbActiveJob.update_job_status_tx
          true 1 "closed" "Not found in 2 consecutive scrapes" 9).1 = true →
      (dbActiveJob.update_job_status_tx
          true 1 "closed" "Not found in 2 consecutive scrapes" 9).2.history =
        dbActiveJob.history ++
          [⟨1, "closed", 9, "Not found in 2 consecutive scrapes"⟩] ∧
      (dbActiveJob.update_job_status_tx
          true 1 "closed" "Not found in 2 consecutive scrapes" 9).2.statusOf 1 =
        (dbActiveJob.statusOf 1).map (fun _ => "closed")) :=
  C4_update_status_atomic dbActiveJob true 1 "closed"
    "Not found in 2 consecutive scrapes" 9

/-- C4 (counterexample to the claim as stated): the initial posting is not
atomic with its history entry.  `save_job` commits the `INSERT` of the new
row (already `status = 'active'`) *before* calling `update_job_status`; if
that second transaction fails, `save_job` returns `False` but the committed
state keeps an `active` job row with no history entry at all. -/
theorem C4_counterexample :
    ((DBState.empty.save_job_tx true
        ⟨"J1", "t", "", "", "", "", "acme", "http://a", "u"⟩ 1 0).1 = false) ∧
    (DBState.empty.save_job_tx true
        ⟨"J1", "t", "", "", "", "", "acme", "http://a", "u"⟩ 1 0).2.statusOf 1 =
      some "active" ∧
    (DBState.empty.save_job_tx true
        ⟨"J1", "t", "", "", "", "", "acme", "http://a", "u"⟩ 1 0).2.history = [] := by
  refine ⟨?_, ?_, ?_⟩ <;> decide

/-! ## Dedup-order lemmas and claim C8 -/

theorem mem_firstSeen (x : String) : ∀ l : List String,
    x ∈ firstSeen l ↔ x ∈ l := by
  intro l
  induction l with
  | nil => simp [firstSeen]
  | cons u rest ih =>
      simp only [firstSeen, List.mem_cons, List.mem_filter, ih]
      by_cases hxu : x = u <;> simp [hxu]

theorem firstSeen_nodup : ∀ l : List String, (firstSeen l).Nodup := by
  intro l
  induction l with
  | nil => simp [firstSeen]
  | cons u rest ih =>
      simp only [firstSeen, List.nodup_cons]
      refine ⟨?_, ih.filter _⟩
      intro hmem
      exact absurd (List.of_mem_filter hmem) (by simp)

/-- `firstSeen` commutes with `filter`. -/
theorem firstSeen_filter (p : String → Bool) :
    ∀ l : List String, firstSeen (l.filter p) = (firstSeen l).filter p := by
  intro l
  induction l with
  | nil => simp [firstSeen]
  | cons u rest ih =>
      by_cases hu : p u
      · rw [List.filter_cons_of_pos hu, firstSeen, firstSeen, ih,
          List.filter_cons_of_pos hu, List.filter_comm]
      · have hu' : p u = false := by simpa using hu
        rw [List.filter_cons_of_neg (by simp [hu']), firstSeen,
          List.filter_cons_of_neg (by simp [hu']), ih, List.filter_filter]
        apply List.filter_congr
        intro x _
        by_cases hpx : p x = true
        · have hxu : x ≠ u := by
            intro h
            rw [h, hu'] at hpx
            exact Bool.false_ne_true hpx
          simp [hpx, hxu]
        · have hpx' : p x = false := by simpa using hpx
          simp [hpx']

/-- The accumulator-passing dedup loop, related to `firstSeen`. -/
theorem dedupFirstSeenAux_eq :
    ∀ (l seen acc : List String),
      dedupFirstSeenAux seen acc l =
        acc ++ firstSeen (l.filter (fun v => ¬ v ∈ seen)) := by
  intro l
  induction l with
  | nil => intro seen acc; simp [dedupFirstSeenAux, firstSeen]
  | cons u rest ih =>
      intro seen acc
      by_cases hu : u ∈ seen
      · rw [dedupFirstSeenAux, if_pos hu, ih,
          List.filter_cons_of_neg (by simpa using hu)]
      · rw [dedupFirstSeenAux, if_neg hu, ih,
          List.filter_cons_of_pos (by simpa using hu), firstSeen]
        have hrest : rest.filter (fun v => ¬ v ∈ (u :: seen)) =
            (rest.filter (fun v => ¬ v ∈ seen)).filter (fun v => v ≠ u) := by
          rw [List.filter_filter]
          apply List.filter_congr
          intro x _
          by_cases hxu : x = u
          · subst hxu
            simp [hu]
          · simp [hxu]
        rw [hrest, firstSeen_filter]
        simp

/-- The final loop of `get_all_job_urls` computes exactly the first-seen
dedup. -/
theorem dedupFirstSeen_eq_firstSeen (l : List String) :
    dedupFirstSeen l = firstSeen l := by
  rw [dedupFirstSeen, dedupFirstSeenAux_eq]
  simp

theorem dedupFirstSeen_nodup (l : List String) : (dedupFirstSeen l).Nodup := by
  rw [dedupFirstSeen_eq_firstSeen]
  exact firstSeen_nodup l

/-- C8 (counterexample to the claim as stated): when the approach-1
re-walk finds strictly more URLs, it replaces the main walk's list
wholesale, so the returned order is the re-walk's order, not the order of
first occurrence across all visited pages.  Main page `a, b`; re-walk page
`b, c, d, a`; first-seen order over the visited pages is `a, b, c, d` but
the walker returns `b, c, d, a`. -/
theorem C8_counterexample :
    (get_all_job_urls id siteReorder).urls = ["b", "c", "d", "a"] ∧
    firstSeen ((get_all_job_urls id siteReorder).stream) = ["a", "b", "c", "d"] ∧
    (get_all_job_urls id siteReorder).urls ≠
      firstSeen ((get_all_job_urls id siteReorder).stream) := by
  refine ⟨?_, ?_, ?_⟩ <;> decide

/-- C8.  Amended: the returned URL list never contains duplicates (for any
set-enumeration order used by approach 2's `list(set(...))`); and whenever
the under-90% fallback branch is not taken — the walk is the plain main
walk — the returned list is exactly the first-seen-order dedup of the
hrefs in page order, no matter how often a URL reappears on later pages.
When a fallback re-walk replaces (approach 1) or set-merges (approach 2)
the collected list, first-seen order over all visited pages is not
preserved (see the counterexample). -/
theorem C8_dedup_order (pySet : List String → List String) (site : ListingSite) :
    (get_all_job_urls pySet site).urls.Nodup ∧
    ((site.expectedTotal = none ∨
        ∀ tot, site.expectedTotal = some tot →
          ¬((walk site.pages site.maxPages).1.length < tot ∧
            10 * (walk site.pages site.maxPages).1.length < 9 * tot)) →
      (get_all_job_urls pySet site).urls =
        firstSeen ((get_all_job_urls pySet site).stream)) := by
  constructor
  · unfold get_all_job_urls
    rcases site.expectedTotal with - | tot
    · exact dedupFirstSeen_nodup _
    · dsimp only
      repeat' split
      all_goals exact dedupFirstSeen_nodup _
  · intro h
    unfold get_all_job_urls
    rcases he : site.expectedTotal with - | tot
    · dsimp only
      exact dedupFirstSeen_eq_firstSeen _
    · rcases h with h | h
      · rw [he] at h
        exact absurd h (by simp)
      · have hnot := h tot he
        dsimp only
        rw [if_neg (by simpa [walk] using hnot)]
        exact dedupFirstSeen_eq_firstSeen _

/-- C8 (witness): a main-walk-only site whose single page lists `a, b, a`:
the walker returns `[a, b]`, duplicate-free and in first-seen order. -/
theorem C8_dedup_order_witness :
    (get_all_job_urls id siteComplete).urls.Nodup ∧
    (get_all_job_urls id siteComplete).urls =
      firstSeen ((get_all_job_urls id siteComplete).stream) :=
  ⟨(C8_dedup_order id siteComplete).1,
    (C8_dedup_order id siteComplete).2
      (Or.inr (fun tot ht => by
        have htot : 2 = tot := by
          simpa [siteComplete, ListingSite.expectedTotal] using ht
        subst htot
        decide))⟩

/-! ## Lifecycle machinery: well-formedness and component preservation -/

/-- Two rows of a well-formed state with the same internal id are equal. -/
theorem WF_id_unique {s : DBState} (hWF : s.WF) {r₁ r₂ : JobRow}
    (h₁ : r₁ ∈ s.jobs) (h₂ : r₂ ∈ s.jobs) (hid : r₁.id = r₂.id) : r₁ = r₂ :=
  List.inj_on_of_nodup_map hWF.1 h₁ h₂ hid

theorem map_ids_of_pres (l : List JobRow) (f : JobRow → JobRow)
    (hf : ∀ r, (f r).id = r.id) :
    (l.map f).map (·.id) = l.map (·.id) := by
  rw [List.map_map]
  congr 1
  funext r
  exact hf r

/-- `WF` is preserved by any jobs-map that keeps ids (the `UPDATE`
statements). -/
theorem WF_map {s : DBState} (hWF : s.WF) (f : JobRow → JobRow)
    (hf : ∀ r, (f r).id = r.id) :
    DBState.WF { s with jobs := s.jobs.map f } := by
  constructor
  · show ((s.jobs.map f).map (·.id)).Nodup
    rw [map_ids_of_pres s.jobs f hf]
    exact hWF.1
  · intro r hr
    rcases List.mem_map.1 hr with ⟨r₀, hr₀, hrf⟩
    rw [← hrf]
    show (f r₀).id < _
    rw [hf r₀]
    exact hWF.2 r₀ hr₀

theorem WF_mark (s : DBState) (hWF : s.WF) (cid : ℕ) :
    (s.mark_company_jobs_as_missed cid).WF :=
  WF_map hWF _ (fun r => by split <;> rfl)

theorem WF_update_last_seen (s : DBState) (hWF : s.WF) (jid : String)
    (cid now : ℕ) : (s.update_job_last_seen jid cid now).WF :=
  WF_map hWF _ (fun r => by split <;> rfl)

theorem WF_update_job_status (s : DBState) (hWF : s.WF) (i : ℕ)
    (st reason : String) (now : ℕ) :
    (s.update_job_status i st reason now).WF := by
  have h := WF_map hWF (fun r =>
    if r.id = i then { r with status := st, last_seen := now } else r)
    (fun r => by dsimp only; split <;> rfl)
  exact ⟨h.1, h.2⟩

theorem WF_close_fold (L : List ℕ) (reason : String) (now : ℕ) :
    ∀ (s : DBState), s.WF →
      (L.foldl (fun st i => st.update_job_status i "closed" reason now) s).WF := by
  induction L with
  | nil => intro s h; exact h
  | cons i rest ih =>
      intro s h
      exact ih _ (WF_update_job_status s h i "closed" reason now)

theorem WF_mark_stale (s : DBState) (hWF : s.WF) (cid now : ℕ) :
    (s.mark_stale_jobs_as_closed cid now).WF :=
  WF_close_fold _ _ _ s hWF

/-- `WF` is preserved when appending a row carrying the fresh
autoincrement id (the `INSERT` in `save_job`). -/
theorem WF_append_fresh (s : DBState) (hWF : s.WF) (nr : JobRow)
    (hid : nr.id = s.nextJobId) :
    DBState.WF { s with jobs := s.jobs ++ [nr], nextJobId := s.nextJobId + 1 } := by
  constructor
  · show ((s.jobs ++ [nr]).map (·.id)).Nodup
    rw [List.map_append, List.nodup_append]
    refine ⟨hWF.1, by simp, ?_⟩
    intro x hx
    simp only [List.map_cons, List.map_nil, List.mem_singleton, hid]
    rcases List.mem_map.1 hx with ⟨r₀, hr₀, hrid⟩
    have := hWF.2 r₀ hr₀
    omega
  · intro r hr
    show r.id < s.nextJobId + 1
    rcases List.mem_append.1 hr with h | h
    · have := hWF.2 r h
      omega
    · simp only [List.mem_singleton] at h
      rw [h, hid]
      omega

theorem WF_save_job (s : DBState) (hWF : s.WF) (j : JobData) (cid now : ℕ) :
    (s.save_job j cid now).2.WF := by
  unfold DBState.save_job
  split
  · exact hWF
  · split
    · split
      · exact WF_update_last_seen _
          (WF_update_job_status _ hWF _ _ _ _) _ _ _
      · exact WF_update_last_seen _ hWF _ _ _
    · exact WF_update_job_status _ (WF_append_fresh s hWF _ rfl) _ _ _ _

theorem WF_obsStep (s : DBState) (hWF : s.WF) (cid now : ℕ) (j : JobData) :
    (s.obsStep cid now j).WF := by
  unfold DBState.obsStep
  split
  · exact WF_update_last_seen _ (WF_save_job s hWF j cid now) _ _ _
  · exact WF_save_job s hWF j cid now

theorem WF_obs_fold (cid now : ℕ) :
    ∀ (J : List JobData) (s : DBState), s.WF →
      (J.foldl (DBState.obsStep cid now) s).WF := by
  intro J
  induction J with
  | nil => intro s h; exact h
  | cons j rest ih =>
      intro s h
      exact ih _ (WF_obsStep s h cid now j)

theorem WF_get_or_create (s : DBState) (hWF : s.WF) (c url : String) (now : ℕ) :
    (s.get_or_create_company c url now).2.WF := by
  unfold DBState.get_or_create_company
  split
  · exact hWF
  · exact hWF

/-- The counting fold inside `save_company_jobs` carries the same state as
the plain `obsStep` fold (the counters do not influence the state). -/
theorem count_fold_state (cid now : ℕ) :
    ∀ (J : List JobData) (sv fl : ℕ) (st : DBState),
    (J.foldl (fun (acc : ℕ × ℕ × DBState) j =>
      if (acc.2.2.save_job j cid now).1 then
        (acc.1 + 1, acc.2.1,
          (acc.2.2.save_job j cid now).2.update_job_last_seen j.job_id cid now)
      else (acc.1, acc.2.1 + 1, (acc.2.2.save_job j cid now).2))
      (sv, fl, st)).2.2 = J.foldl (DBState.obsStep cid now) st := by
  intro J
  induction J with
  | nil => intro sv fl st; rfl
  | cons j rest ih =>
      intro sv fl st
      simp only [List.foldl_cons]
      by_cases hc : (st.save_job j cid now).1 = true
      · rw [if_pos hc, ih]
        congr 1
        rw [DBState.obsStep, if_pos hc]
      · rw [if_neg hc, ih]
        congr 1
        rw [DBState.obsStep, if_neg hc]

/-- The state component of `save_company_jobs`, written as the op
pipeline. -/
theorem save_company_jobs_state (s : DBState) (c : String) (J : List JobData)
    (now : ℕ) :
    (s.save_company_jobs c J now).2.2 =
      ((J.foldl
        (DBState.obsStep (s.companyIdFor c) now)
        (((s.get_or_create_company c ((J.head?.map (·.company_url)).getD "")
            now).2).mark_company_jobs_as_missed
          (s.companyIdFor c))).mark_stale_jobs_as_closed (s.companyIdFor c) now) := by
  have hcid : (s.get_or_create_company c
      ((J.head?.map (·.company_url)).getD "") now).1 = s.companyIdFor c := by
    unfold DBState.get_or_create_company DBState.companyIdFor
    rcases h : s.lookupCompany c with - | cid <;> simp [h]
  unfold DBState.save_company_jobs
  dsimp only
  rw [count_fold_state, hcid]

theorem WF_save_company_jobs (s : DBState) (hWF : s.WF) (c : String)
    (J : List JobData) (now : ℕ) : (s.save_company_jobs c J now).2.2.WF := by
  rw [save_company_jobs_state]
  exact WF_mark_stale _
    (WF_obs_fold _ _ _ _ (WF_mark _ (WF_get_or_create s hWF _ _ _) _)) _ _

/-- The per-company fold of `save_jobs` carries the same state as a plain
state fold. -/
theorem group_fold_state (now : ℕ) :
    ∀ (G : List (String × List JobData)) (sv fl : ℕ) (st : DBState),
    (G.foldl (fun (acc : ℕ × ℕ × DBState) g =>
      (acc.1 + (acc.2.2.save_company_jobs g.1 g.2 now).1,
       acc.2.1 + (acc.2.2.save_company_jobs g.1 g.2 now).2.1,
       (acc.2.2.save_company_jobs g.1 g.2 now).2.2))
      (sv, fl, st)).2.2 =
    G.foldl (fun st g => (st.save_company_jobs g.1 g.2 now).2.2) st := by
  intro G
  induction G with
  | nil => intro sv fl st; rfl
  | cons g rest ih =>
      intro sv fl st
      simp only [List.foldl_cons]
      rw [ih]

/-- The state component of `save_jobs`. -/
theorem save_jobs_state (s : DBState) (jobs : List JobData) (now : ℕ) :
    (s.save_jobs jobs now).2.2 =
      (groupByCompany jobs).foldl
        (fun st g => (st.save_company_jobs g.1 g.2 now).2.2) s := by
  unfold DBState.save_jobs
  rw [group_fold_state]

theorem WF_state_fold (now : ℕ) :
    ∀ (G : List (String × List JobData)) (st : DBState), st.WF →
      (G.foldl (fun st g => (st.save_company_jobs g.1 g.2 now).2.2) st).WF := by
  intro G
  induction G with
  | nil => intro st h; exact h
  | cons g rest ih =>
      intro st h
      exact ih _ (WF_save_company_jobs st h g.1 g.2 now)

theorem WF_save_jobs (s : DBState) (hWF : s.WF) (jobs : List JobData)
    (now : ℕ) : (s.save_jobs jobs now).2.2.WF := by
  rw [save_jobs_state]
  exact WF_state_fold now _ s hWF

/-! ## Lifecycle machinery: companies, history and row tracking -/

theorem companies_mark (s : DBState) (cid : ℕ) :
    (s.mark_company_jobs_as_missed cid).companies = s.companies := rfl

theorem companies_update_last_seen (s : DBState) (jid : String) (cid now : ℕ) :
    (s.update_job_last_seen jid cid now).companies = s.companies := rfl

theorem companies_update_job_status (s : DBState) (i : ℕ) (st reason : String)
    (now : ℕ) : (s.update_job_status i st reason now).companies = s.companies := rfl

theorem companies_close_fold (reason : String) (now : ℕ) :
    ∀ (L : List ℕ) (s : DBState),
      (L.foldl (fun st k => st.update_job_status k "closed" reason now)
        s).companies = s.companies := by
  intro L
  induction L with
  | nil => intro s; rfl
  | cons k rest ih => intro s; rw [List.foldl_cons, ih]; rfl

theorem companies_mark_stale (s : DBState) (cid now : ℕ) :
    (s.mark_stale_jobs_as_closed cid now).companies = s.companies :=
  companies_close_fold _ _ _ _

theorem companies_save_job (s : DBState) (j : JobData) (cid now : ℕ) :
    (s.save_job j cid now).2.companies = s.companies := by
  unfold DBState.save_job
  split
  · rfl
  · split
    · split <;> rfl
    · rfl

theorem companies_obsStep (s : DBState) (cid now : ℕ) (j : JobData) :
    (s.obsStep cid now j).companies = s.companies := by
  unfold DBState.obsStep
  split
  · rw [companies_update_last_seen, companies_save_job]
  · rw [companies_save_job]

theorem companies_obs_fold (cid now : ℕ) :
    ∀ (J : List JobData) (s : DBState),
      (J.foldl (DBState.obsStep cid now) s).companies = s.companies := by
  intro J
  induction J with
  | nil => intro s; rfl
  | cons j rest ih => intro s; rw [List.foldl_cons, ih, companies_obsStep]

theorem companies_get_or_create (s : DBState) (c url : String) (now : ℕ) :
    ∃ extra, (s.get_or_create_company c url now).2.companies =
      s.companies ++ extra := by
  unfold DBState.get_or_create_company
  split
  · exact ⟨[], by simp⟩
  · exact ⟨_, rfl⟩

theorem companies_save_company_jobs (s : DBState) (c : String)
    (J : List JobData) (now : ℕ) :
    ∃ extra, (s.save_company_jobs c J now).2.2.companies =
      s.companies ++ extra := by
  rw [save_company_jobs_state, companies_mark_stale, companies_obs_fold,
    companies_mark]
  exact companies_get_or_create s c _ now

theorem companies_save_jobs (s : DBState) (jobs : List JobData) (now : ℕ) :
    ∃ extra, (s.save_jobs jobs now).2.2.companies = s.companies ++ extra := by
  rw [save_jobs_state]
  induction groupByCompany jobs generalizing s with
  | nil => exact ⟨[], by simp⟩
  | cons g rest ih =>
      rw [List.foldl_cons]
      rcases ih ((s.save_company_jobs g.1 g.2 now).2.2) with ⟨e₂, he₂⟩
      rcases companies_save_company_jobs s g.1 g.2 now with ⟨e₁, he₁⟩
      exact ⟨e₁ ++ e₂, by rw [he₂, he₁, List.append_assoc]⟩

/-- A company lookup survives any extension of the companies table. -/
theorem lookupCompany_mono {s s' : DBState} {c : String} {cid : ℕ}
    (extra : List CompanyRow) (hc : s'.companies = s.companies ++ extra)
    (h : s.lookupCompany c = some cid) : s'.lookupCompany c = some cid := by
  unfold DBState.lookupCompany at h ⊢
  rcases hf : s.companies.find? (fun cr => cr.name = c) with - | cr
  · rw [hf] at h; exact absurd h (by simp)
  · rw [hf] at h
    rw [hc, List.find?_append, hf]
    simpa using h

theorem lookupCompany_save_jobs {s : DBState} {c : String} {cid : ℕ}
    (jobs : List JobData) (now : ℕ) (h : s.lookupCompany c = some cid) :
    (s.save_jobs jobs now).2.2.lookupCompany c = some cid := by
  rcases companies_save_jobs s jobs now with ⟨extra, hextra⟩
  exact lookupCompany_mono extra hextra h

/-! ### History -/

theorem history_mark (s : DBState) (cid : ℕ) :
    (s.mark_company_jobs_as_missed cid).history = s.history := rfl

theorem history_close_fold (reason : String) (now : ℕ) :
    ∀ (L : List ℕ) (s : DBState),
      (L.foldl (fun st k => st.update_job_status k "closed" reason now)
        s).history =
      s.history ++ L.map (fun k => ⟨k, "closed", now, reason⟩) := by
  intro L
  induction L with
  | nil => intro s; simp
  | cons k rest ih =>
      intro s
      rw [List.foldl_cons, ih, history_update_job_status]
      simp

/-! ### Row tracking -/

theorem rowById_mem {s : DBState} {i : ℕ} {r : JobRow}
    (h : s.rowById i = some r) : r ∈ s.jobs ∧ r.id = i := by
  refine ⟨List.mem_of_find?_eq_some h, ?_⟩
  have := List.find?_some h
  simpa using this

theorem rowById_of_mem {s : DBState} (hWF : s.WF) {r : JobRow}
    (hr : r ∈ s.jobs) : s.rowById r.id = some r := by
  have hsome : (s.jobs.find? (fun x => x.id = r.id)).isSome := by
    rw [List.find?_isSome]
    exact ⟨r, hr, by simp⟩
  rcases Option.isSome_iff_exists.1 hsome with ⟨r₀, hr₀⟩
  have hr₀' : s.rowById r.id = some r₀ := hr₀
  rcases rowById_mem hr₀' with ⟨hmem₀, hid₀⟩
  rw [hr₀', WF_id_unique hWF hmem₀ hr hid₀]

/-- The sweep fold, on the row with internal id `i`: rows whose id is
listed get closed, other rows are untouched. -/
theorem rowById_close_fold (reason : String) (now : ℕ) :
    ∀ (L : List ℕ) (s : DBState) (i : ℕ),
      ((L.foldl (fun st k => st.update_job_status k "closed" reason now)
        s).rowById i) =
      (s.rowById i).map (fun r =>
        if i ∈ L then { r with status := "closed", last_seen := now } else r) := by
  intro L
  induction L with
  | nil =>
      intro s i
      simp
  | cons k rest ih =>
      intro s i
      rw [List.foldl_cons, ih, rowById_update_job_status]
      rcases h : s.rowById i with - | r₀
      · rfl
      · rcases rowById_mem h with ⟨-, hid⟩
        simp only [Option.map_some', Option.some.injEq]
        by_cases hik : i = k
        · rw [if_pos (by omega : r₀.id = k)]
          by_cases hmem : i ∈ rest
          · rw [if_pos hmem, if_pos (by simp [hik])]
          · rw [if_neg hmem, if_pos (by simp [hik])]
        · rw [if_neg (by omega : ¬ r₀.id = k)]
          by_cases hmem : i ∈ rest
          · rw [if_pos hmem, if_pos (by simp [hmem])]
          · rw [if_neg hmem, if_neg (by simp [hik, hmem])]

/-- A `save_job` for a different `job_id` leaves the tracked row alone. -/
theorem rowById_save_job_untouched {s : DBState} (hWF : s.WF) {i : ℕ}
    {r : JobRow} (hrow : s.rowById i = some r) (j : JobData) (cid now : ℕ)
    (hne : j.job_id = "" ∨ r.job_id ≠ j.job_id) :
    (s.save_job j cid now).2.rowById i = some r := by
  rcases rowById_mem hrow with ⟨hmem, hid⟩
  unfold DBState.save_job
  split
  · exact hrow
  · rename_i hvalid
    have hne' : r.job_id ≠ j.job_id := by
      rcases hne with h | h
      · exact absurd h hvalid
      · exact h
    split
    · rename_i row hfound
      have hrowmem := List.mem_of_find?_eq_some hfound
      have hrowjid : row.job_id = j.job_id ∧ row.company_id = cid := by
        have := List.find?_some hfound
        simpa using this
      dsimp only
      rw [rowById_update_job_last_seen]
      have hreact : (if row.status = "closed" then s.reactivate_job row.id now
          else s).rowById i = some r := by
        split
        · rw [DBState.reactivate_job, rowById_update_job_status, hrow]
          simp only [Option.map_some', Option.some.injEq]
          rw [if_neg]
          intro hcontra
          have : r = row := WF_id_unique hWF hmem hrowmem (by omega)
          rw [this] at hne'
          exact hne' hrowjid.1
        · exact hrow
      rw [hreact]
      simp only [Option.map_some', Option.some.injEq]
      rw [if_neg]
      intro hcontra
      exact hne' hcontra.1
    · -- insert branch: the appended row has a fresh id and the history
      -- transaction only touches that id
      dsimp only
      rw [rowById_update_job_status]
      have happend : (DBState.rowById
          { s with
              jobs := s.jobs ++
                [{ id := s.nextJobId, job_id := j.job_id, title := j.title
                   description := j.description, date_posted := j.date_posted
                   employment_type := j.employment_type, location := j.location
                   company_id := cid, url := j.url, timestamp := now
                   created_at := now, status := "active", last_seen := now
                   missed_scrapes := 0 }]
              nextJobId := s.nextJobId + 1 } i) = some r := by
        show ((s.jobs ++ [_]).find? (fun x => x.id = i)) = some r
        rw [List.find?_append]
        rw [show s.jobs.find? (fun x => x.id = i) = some r from hrow]
        rfl
      rw [happend]
      simp only [Option.map_some', Option.some.injEq]
      rw [if_neg]
      have := hWF.2 r hmem
      omega

theorem rowById_obsStep_untouched {s : DBState} (hWF : s.WF) {i : ℕ}
    {r : JobRow} (hrow : s.rowById i = some r) (j : JobData) (cid now : ℕ)
    (hne : j.job_id = "" ∨ r.job_id ≠ j.job_id) :
    (s.obsStep cid now j).rowById i = some r := by
  unfold DBState.obsStep
  have hsj := rowById_save_job_untouched hWF hrow j cid now hne
  split
  · rw [rowById_update_job_last_seen, hsj]
    simp only [Option.map_some', Option.some.injEq]
    rw [if_neg]
    intro hcontra
    rename_i hok
    -- `ok = true` means the job id is non-empty
    have hvalid : j.job_id ≠ "" := by
      intro hempty
      rw [DBState.save_job, if_pos hempty] at hok
      simp at hok
    rcases hne with h | h
    · exact hvalid h
    · exact h hcontra.1
  · exact hsj

theorem rowById_obs_fold_untouched (cid now : ℕ) :
    ∀ (J : List JobData) {s : DBState}, s.WF → ∀ {i : ℕ} {r : JobRow},
      s.rowById i = some r →
      (∀ j ∈ J, j.job_id = "" ∨ r.job_id ≠ j.job_id) →
      (J.foldl (DBState.obsStep cid now) s).rowById i = some r := by
  intro J
  induction J with
  | nil => intro s _ i r hrow _; exact hrow
  | cons j rest ih =>
      intro s hWF i r hrow hne
      rw [List.foldl_cons]
      exact ih (WF_obsStep s hWF cid now j)
        (rowById_obsStep_untouched hWF hrow j cid now (hne j (by simp)))
        (fun j' hj' => hne j' (by simp [hj']))

/-! ## Lifecycle machinery: single-company runs -/

theorem groupByCompany_step_aux (c : String) (hc : c ≠ "") :
    ∀ (R P : List JobData), (∀ j ∈ R, j.company = c) →
      R.foldl (fun acc j =>
        if j.company = "" then acc
        else if acc.any (fun g => g.1 = j.company) then
          acc.map (fun g => if g.1 = j.company then (g.1, g.2 ++ [j]) else g)
        else acc ++ [(j.company, [j])]) [(c, P)] = [(c, P ++ R)] := by
  intro R
  induction R with
  | nil => intro P _; simp
  | cons j rest ih =>
      intro P hR
      have hjc : j.company = c := hR j (by simp)
      rw [List.foldl_cons, if_neg (by rw [hjc]; exact hc),
        if_pos (by simp [hjc])]
      have hmap : ([(c, P)].map (fun g =>
          if g.1 = j.company then (g.1, g.2 ++ [j]) else g)) = [(c, P ++ [j])] := by
        simp [hjc]
      rw [hmap, ih (P ++ [j]) (fun j' hj' => hR j' (by simp [hj']))]
      simp

/-- When every observed job carries the same non-empty company name, the
grouping loop produces a single group. -/
theorem groupByCompany_single {c : String} (hc : c ≠ "") :
    ∀ (J : List JobData), (∀ j ∈ J, j.company = c) → J ≠ [] →
      groupByCompany J = [(c, J)] := by
  intro J hJ hne
  rcases J with - | ⟨j, rest⟩
  · exact absurd rfl hne
  · have hjc : j.company = c := hJ j (by simp)
    unfold groupByCompany
    rw [List.foldl_cons, if_neg (by rw [hjc]; exact hc)]
    have : (List.nil : List (String × List JobData)).any
        (fun g => g.1 = j.company) = false := rfl
    rw [this]
    simp only [Bool.false_eq_true, if_false, List.nil_append]
    rw [hjc, groupByCompany_step_aux c hc rest [j]
      (fun j' hj' => hJ j' (by simp [hj']))]
    simp

/-- A single-company `save_jobs` run is one `save_company_jobs` call. -/
theorem save_jobs_single_company (s : DBState) {c : String} (hc : c ≠ "")
    {J : List JobData} (hJ : ∀ j ∈ J, j.company = c) (hne : J ≠ []) (now : ℕ) :
    (s.save_jobs J now).2.2 = (s.save_company_jobs c J now).2.2 := by
  rw [save_jobs_state, groupByCompany_single hc J hJ hne]
  rfl

theorem companyIdFor_eq {s : DBState} {c : String} {cid : ℕ}
    (h : s.lookupCompany c = some cid) : s.companyIdFor c = cid := by
  unfold DBState.companyIdFor
  rw [h]
  rfl

theorem rowById_get_or_create (s : DBState) (c url : String) (now i : ℕ) :
    (s.get_or_create_company c url now).2.rowById i = s.rowById i := by
  unfold DBState.get_or_create_company
  split <;> rfl

theorem rowById_mark_stale (s : DBState) (cid now i : ℕ) :
    (s.mark_stale_jobs_as_closed cid now).rowById i =
      (s.rowById i).map (fun r =>
        if i ∈ s.staleIds cid then
          { r with status := "closed", last_seen := now } else r) :=
  rowById_close_fold _ now (s.staleIds cid) s i

theorem history_mark_stale (s : DBState) (cid now : ℕ) :
    (s.mark_stale_jobs_as_closed cid now).history =
      s.history ++ (s.staleIds cid).map
        (fun k => ⟨k, "closed", now, "Not found in 2 consecutive scrapes"⟩) :=
  history_close_fold _ now (s.staleIds cid) s

theorem mem_staleIds {s : DBState} {cid i : ℕ} :
    i ∈ s.staleIds cid ↔ ∃ r ∈ s.jobs,
      (r.company_id = cid ∧ r.status = "active" ∧ 2 ≤ r.missed_scrapes) ∧
        r.id = i := by
  unfold DBState.staleIds
  simp
  tauto

/-- One single-company reconcile run, seen from an `active` row that is
not among the observed jobs: before the sweep, the run has only bumped its
`missed_scrapes` by one. -/
theorem save_jobs_unobserved_pre (s : DBState) (hWF : s.WF) {r : JobRow}
    (hr : r ∈ s.jobs) (hact : r.status = "active") {c : String} (hc : c ≠ "")
    (hcid : s.lookupCompany c = some r.company_id)
    {J : List JobData} (hJc : ∀ j ∈ J, j.company = c) (hJne : J ≠ [])
    (hnot : r.job_id ∉ validIds J) (now : ℕ) :
    ∃ st : DBState, (s.save_jobs J now).2.2 =
        st.mark_stale_jobs_as_closed r.company_id now ∧ st.WF ∧
      st.rowById r.id = some { r with missed_scrapes := r.missed_scrapes + 1 } := by
  have hidfor : s.companyIdFor c = r.company_id := companyIdFor_eq hcid
  rw [save_jobs_single_company s hc hJc hJne now, save_company_jobs_state,
    hidfor]
  refine ⟨_, rfl, ?_, ?_⟩
  · exact WF_obs_fold _ _ _ _ (WF_mark _ (WF_get_or_create s hWF _ _ _) _)
  · have hmark : ((s.get_or_create_company c
        ((J.head?.map (·.company_url)).getD "") now).2.mark_company_jobs_as_missed
        r.company_id).rowById r.id =
        some { r with missed_scrapes := r.missed_scrapes + 1 } := by
      rw [rowById_mark_missed, rowById_get_or_create,
        rowById_of_mem hWF hr]
      simp [hact]
    exact rowById_obs_fold_untouched _ _ J
      (WF_mark _ (WF_get_or_create s hWF _ _ _) _) hmark
      (fun j hj => by
        by_cases hjid : j.job_id = ""
        · exact Or.inl hjid
        · refine Or.inr ?_
          intro hcontra
          apply hnot
          unfold validIds
          rw [hcontra]
          exact List.mem_map_of_mem _ (List.mem_filter.2 ⟨hj, by simpa using hjid⟩))

/-! ## Claim C2 -/

/-- C2 (counterexample to the claim as stated): a reconcile run that
contains no job of the record's company never touches it.  With one active
job (`missed_scrapes = 0`) and `save_jobs []`, the pessimistic mark never
runs: the counter stays 0 instead of becoming 1, and no number of repeated
empty runs ever closes the job. -/
theorem C2_counterexample :
    (dbFreshJob.save_jobs [] 5).2.2 = dbFreshJob ∧
    (dbFreshJob.save_jobs [] 5).2.2.missedOf 1 = some 0 ∧
    ¬ (dbFreshJob.save_jobs [] 5).2.2.missedOf 1 = some 1 := by
  refine ⟨?_, ?_, ?_⟩ <;> decide

/-- C2.  Amended: for an `active` JobRecord with `missed_scrape_count = 0`,
a reconcile run *that processes its company* (a non-empty observed list for
that company name) in which the job is not observed leaves it `active` with
`missed_scrapes = 1`; a second such run closes it, appending a history
entry with reason "Not found in 2 consecutive scrapes". -/
theorem C2_closure_after_two_missed (s : DBState) (hWF : s.WF) (r : JobRow)
    (hr : r ∈ s.jobs) (hact : r.status = "active") (hm0 : r.missed_scrapes = 0)
    (c : String) (hc : c ≠ "") (hcid : s.lookupCompany c = some r.company_id)
    (J₁ J₂ : List JobData) (hJ₁c : ∀ j ∈ J₁, j.company = c) (hJ₁ne : J₁ ≠ [])
    (hn₁ : r.job_id ∉ validIds J₁) (hJ₂c : ∀ j ∈ J₂, j.company = c)
    (hJ₂ne : J₂ ≠ []) (hn₂ : r.job_id ∉ validIds J₂) (now₁ now₂ : ℕ) :
    (s.save_jobs J₁ now₁).2.2.statusOf r.id = some "active" ∧
    (s.save_jobs J₁ now₁).2.2.missedOf r.id = some 1 ∧
    ((s.save_jobs J₁ now₁).2.2.save_jobs J₂ now₂).2.2.statusOf r.id =
      some "closed" ∧
    (⟨r.id, "closed", now₂, "Not found in 2 consecutive scrapes"⟩ : HistoryRow) ∈
      ((s.save_jobs J₁ now₁).2.2.save_jobs J₂ now₂).2.2.history := by
  obtain ⟨st₁, heq₁, hWF₁, hrow₁⟩ :=
    save_jobs_unobserved_pre s hWF hr hact hc hcid hJ₁c hJ₁ne hn₁ now₁
  have hnotstale : r.id ∉ st₁.staleIds r.company_id := by
    intro hmem
    rcases mem_staleIds.1 hmem with ⟨r', hr'mem, hcond, hid'⟩
    have hthis : st₁.rowById r'.id = some r' := rowById_of_mem hWF₁ hr'mem
    rw [hid', hrow₁] at hthis
    have : r' = { r with missed_scrapes := r.missed_scrapes + 1 } := by
      have := Option.some.inj hthis
      rw [this]
    rw [this] at hcond
    have h2 := hcond.2.2
    simp only at h2
    omega
  have hrowA : (s.save_jobs J₁ now₁).2.2.rowById r.id =
      some { r with missed_scrapes := r.missed_scrapes + 1 } := by
    rw [heq₁, rowById_mark_stale, hrow₁]
    simp only [Option.map_some', Option.some.injEq]
    rw [if_neg hnotstale]
  have hstatusA : (s.save_jobs J₁ now₁).2.2.statusOf r.id = some "active" := by
    rw [statusOf_eq_rowById, hrowA]
    simpa using hact
  have hmissedA : (s.save_jobs J₁ now₁).2.2.missedOf r.id = some 1 := by
    rw [missedOf_eq_rowById, hrowA]
    simp [hm0]
  refine ⟨hstatusA, hmissedA, ?_, ?_⟩ <;>
  · have hWFA := WF_save_jobs s hWF J₁ now₁
    have hcidA : (s.save_jobs J₁ now₁).2.2.lookupCompany c =
        some r.company_id := lookupCompany_save_jobs J₁ now₁ hcid
    have hr₁mem := rowById_mem hrowA
    obtain ⟨st₂, heq₂, hWF₂, hrow₂⟩ :=
      save_jobs_unobserved_pre _ hWFA hr₁mem.1
        (show ({ r with missed_scrapes := r.missed_scrapes + 1 } : JobRow).status
          = "active" from hact)
        hc hcidA hJ₂c hJ₂ne hn₂ now₂
    have hr₂mem := rowById_mem hrow₂
    have hstale : r.id ∈ st₂.staleIds r.company_id := by
      apply mem_staleIds.2
      refine ⟨_, hr₂mem.1, ⟨rfl, hact, ?_⟩, hr₂mem.2⟩
      simp only
      omega
    first
    | -- status component
      (rw [heq₂, statusOf_eq_rowById, rowById_mark_stale, hrow₂]
       simp only [Option.map_some', Option.some.injEq]
       rw [if_pos hstale])
    | -- history component
      (rw [heq₂, history_mark_stale]
       refine List.mem_append_right _ ?_
       exact List.mem_map_of_mem _ hstale)

/-- C2 (witness): `acme` has one active job `J1` with `missed_scrapes =
0`; two runs that each observe only another job `J2` of the same company
first bump the counter, then close `J1`. -/
theorem C2_closure_after_two_missed_witness :
    (dbFreshJob.save_jobs
      [⟨"J2", "t2", "", "", "", "", "acme", "http://a", "u2"⟩] 1).2.2.statusOf 1 =
        some "active" ∧
    (dbFreshJob.save_jobs
      [⟨"J2", "t2", "", "", "", "", "acme", "http://a", "u2"⟩] 1).2.2.missedOf 1 =
        some 1 ∧
    ((dbFreshJob.save_jobs
      [⟨"J2", "t2", "", "", "", "", "acme", "http://a", "u2"⟩] 1).2.2.save_jobs
      [⟨"J2", "t2", "", "", "", "", "acme", "http://a", "u2"⟩] 2).2.2.statusOf 1 =
        some "closed" ∧
    (⟨1, "closed", 2, "Not found in 2 consecutive scrapes"⟩ : HistoryRow) ∈
      ((dbFreshJob.save_jobs
        [⟨"J2", "t2", "", "", "", "", "acme", "http://a", "u2"⟩] 1).2.2.save_jobs
        [⟨"J2", "t2", "", "", "", "", "acme", "http://a", "u2"⟩] 2).2.2.history :=
  C2_closure_after_two_missed dbFreshJob (by decide)
    ⟨1, "J1", "t", "", "", "", "", 1, "u", 0, 0, "active", 0, 0⟩
    (by decide) (by decide) (by decide) "acme" (by decide) (by decide)
    [⟨"J2", "t2", "", "", "", "", "acme", "http://a", "u2"⟩]
    [⟨"J2", "t2", "", "", "", "", "acme", "http://a", "u2"⟩]
    (by decide) (by decide) (by decide) (by decide) (by decide) (by decide) 1 2

/-! ## Lifecycle machinery: idempotence of the second run (claim C1) -/

theorem save_job_empty {j : JobData} (h : j.job_id = "") (s : DBState)
    (cid now : ℕ) : s.save_job j cid now = (false, s) := by
  simp [DBState.save_job, h]

theorem obsStep_invalid {j : JobData} (h : j.job_id = "") (s : DBState)
    (cid now : ℕ) : s.obsStep cid now j = s := by
  unfold DBState.obsStep
  rw [save_job_empty h]
  simp

theorem validIds_cons_invalid {j : JobData} (h : j.job_id = "")
    (R : List JobData) : validIds (j :: R) = validIds R := by
  unfold validIds
  rw [List.filter_cons_of_neg (by simpa using h)]

theorem validIds_cons_valid {j : JobData} (h : j.job_id ≠ "")
    (R : List JobData) : validIds (j :: R) = j.job_id :: validIds R := by
  unfold validIds
  rw [List.filter_cons_of_pos (by simpa using h)]
  rfl

theorem get_or_create_found {s : DBState} {c : String} {cid : ℕ}
    (h : s.lookupCompany c = some cid) (url : String) (now : ℕ) :
    s.get_or_create_company c url now = (cid, s) := by
  unfold DBState.get_or_create_company
  rw [h]

theorem lookupCompany_get_or_create (s : DBState) (c url : String) (now : ℕ) :
    (s.get_or_create_company c url now).2.lookupCompany c =
      some (s.companyIdFor c) := by
  unfold DBState.get_or_create_company DBState.companyIdFor
  rcases h : s.lookupCompany c with - | cid
  · have hfind : s.companies.find? (fun cr => cr.name = c) = none := by
      unfold DBState.lookupCompany at h
      rcases hf : s.companies.find? (fun cr => cr.name = c) with - | cr
      · exact hf
      · rw [hf] at h
        exact absurd h (by simp)
    simp only [Option.getD_none]
    show ((s.companies ++ [(⟨s.nextCompanyId, c, url, now⟩ : CompanyRow)]).find?
        (fun cr => cr.name = c)).map (fun x => x.id) = some s.nextCompanyId
    rw [List.find?_append, hfind, Option.none_or]
    simp [List.find?_cons]
  · simpa using h

theorem lookupCompany_eq_of_companies {s₁ s₂ : DBState} (c : String)
    (h : s₁.companies = s₂.companies) :
    s₁.lookupCompany c = s₂.lookupCompany c := by
  unfold DBState.lookupCompany
  rw [h]

/-- When every active row of the company has a zero counter, the sweep is
a no-op. -/
theorem mark_stale_empty {s : DBState} {cid : ℕ}
    (h : ∀ r ∈ s.jobs, r.company_id = cid → r.status = "active" →
      r.missed_scrapes = 0) (now : ℕ) :
    s.mark_stale_jobs_as_closed cid now = s := by
  unfold DBState.mark_stale_jobs_as_closed
  have hnil : s.staleIds cid = [] := by
    unfold DBState.staleIds
    rw [List.map_eq_nil, List.filter_eq_nil]
    intro r hr
    simp only [decide_eq_true_eq, not_and, not_le]
    intro hcid hact
    rw [h r hr hcid hact]
    omega
  rw [hnil]
  rfl

theorem idStatus_update_last_seen (s : DBState) (jid : String) (cid now : ℕ) :
    (s.update_job_last_seen jid cid now).jobs.map (fun r => (r.id, r.status)) =
      s.jobs.map (fun r => (r.id, r.status)) := by
  show (s.jobs.map _).map _ = _
  rw [List.map_map]
  congr 1
  funext r
  by_cases h : r.job_id = jid ∧ r.company_id = cid <;>
    simp [Function.comp_def, h]

theorem idStatus_mark (s : DBState) (cid : ℕ) :
    (s.mark_company_jobs_as_missed cid).jobs.map (fun r => (r.id, r.status)) =
      s.jobs.map (fun r => (r.id, r.status)) := by
  show (s.jobs.map _).map _ = _
  rw [List.map_map]
  congr 1
  funext r
  by_cases h : r.company_id = cid ∧ r.status = "active" <;>
    simp [Function.comp_def, h]

theorem findJob_update_last_seen (s : DBState) (jid' : String) (cid' now : ℕ)
    (jid : String) (cid : ℕ) :
    (s.update_job_last_seen jid' cid' now).findJob jid cid =
      (s.findJob jid cid).map (fun r =>
        if r.job_id = jid' ∧ r.company_id = cid' then
          { r with last_seen := now, missed_scrapes := 0 } else r) := by
  unfold DBState.findJob DBState.update_job_last_seen
  apply find?_map_pres
  intro r
  by_cases h : r.job_id = jid' ∧ r.company_id = cid' <;> simp [h]

theorem findJob_update_job_status (s : DBState) (i : ℕ) (st' reason : String)
    (now : ℕ) (jid : String) (cid : ℕ) :
    (s.update_job_status i st' reason now).findJob jid cid =
      (s.findJob jid cid).map (fun r =>
        if r.id = i then { r with status := st', last_seen := now } else r) := by
  unfold DBState.findJob DBState.update_job_status
  apply find?_map_pres
  intro r
  by_cases h : r.id = i <;> simp [h]

theorem findJob_mark (s : DBState) (cid' : ℕ) (jid : String) (cid : ℕ) :
    (s.mark_company_jobs_as_missed cid').findJob jid cid =
      (s.findJob jid cid).map (fun r =>
        if r.company_id = cid' ∧ r.status = "active" then
          { r with missed_scrapes := r.missed_scrapes + 1 } else r) := by
  unfold DBState.findJob DBState.mark_company_jobs_as_missed
  apply find?_map_pres
  intro r
  by_cases h : r.company_id = cid' ∧ r.status = "active" <;> simp [h]

/-- `update_job_last_seen` does not change which row is found nor its
status. -/
theorem findJob_status_update_last_seen (s : DBState) (jid' : String)
    (cid' now : ℕ) (jid : String) (cid : ℕ) :
    ((s.update_job_last_seen jid' cid' now).findJob jid cid).map (·.status) =
      (s.findJob jid cid).map (·.status) := by
  rw [findJob_update_last_seen, Option.map_map]
  congr 1
  funext r
  by_cases h : r.job_id = jid' ∧ r.company_id = cid' <;>
    simp [Function.comp_def, h]

theorem findJob_status_mark (s : DBState) (cid' : ℕ) (jid : String) (cid : ℕ) :
    ((s.mark_company_jobs_as_missed cid').findJob jid cid).map (·.status) =
      (s.findJob jid cid).map (·.status) := by
  rw [findJob_mark, Option.map_map]
  congr 1
  funext r
  by_cases h : r.company_id = cid' ∧ r.status = "active" <;>
    simp [Function.comp_def, h]

/-- Setting some row `active` can only keep a found row non-closed. -/
theorem findJob_notClosed_update_active {s : DBState} {jid : String} {cid : ℕ}
    (i now : ℕ) (reason : String)
    (h : ∃ m, s.findJob jid cid = some m ∧ m.status ≠ "closed") :
    ∃ m, (s.update_job_status i "active" reason now).findJob jid cid = some m ∧
      m.status ≠ "closed" := by
  rcases h with ⟨m, hm, hnc⟩
  rw [findJob_update_job_status, hm]
  refine ⟨_, rfl, ?_⟩
  by_cases h : m.id = i <;> simp [h, hnc]

theorem findJob_notClosed_update_last_seen {s : DBState} {jid : String}
    {cid : ℕ} (jid' : String) (cid' now : ℕ)
    (h : ∃ m, s.findJob jid cid = some m ∧ m.status ≠ "closed") :
    ∃ m, (s.update_job_last_seen jid' cid' now).findJob jid cid = some m ∧
      m.status ≠ "closed" := by
  rcases h with ⟨m, hm, hnc⟩
  rw [findJob_update_last_seen, hm]
  refine ⟨_, rfl, ?_⟩
  by_cases h : m.job_id = jid' ∧ m.company_id = cid' <;> simp [h, hnc]

theorem findJob_notClosed_mark {s : DBState} {jid : String} {cid : ℕ}
    (cid' : ℕ) (h : ∃ m, s.findJob jid cid = some m ∧ m.status ≠ "closed") :
    ∃ m, (s.mark_company_jobs_as_missed cid').findJob jid cid = some m ∧
      m.status ≠ "closed" := by
  rcases h with ⟨m, hm, hnc⟩
  rw [findJob_mark, hm]
  refine ⟨_, rfl, ?_⟩
  by_cases h : m.company_id = cid' ∧ m.status = "active" <;> simp [h, hnc]

/-- Row-level transfer through `update_job_last_seen`. -/
theorem forall_rows_update_last_seen {P : JobRow → Prop} {st : DBState}
    {jid' : String} {cid' now : ℕ}
    (h : ∀ r ∈ st.jobs, P (if r.job_id = jid' ∧ r.company_id = cid' then
      { r with last_seen := now, missed_scrapes := 0 } else r)) :
    ∀ r' ∈ (st.update_job_last_seen jid' cid' now).jobs, P r' := by
  intro r' hr'
  obtain ⟨r, hr, rfl⟩ := List.mem_map.1 hr'
  exact h r hr

/-- Row-level transfer through `update_job_status`. -/
theorem forall_rows_update_job_status {P : JobRow → Prop} {st : DBState}
    {i : ℕ} {st' reason : String} {now : ℕ}
    (h : ∀ r ∈ st.jobs, P (if r.id = i then
      { r with status := st', last_seen := now } else r)) :
    ∀ r' ∈ (st.update_job_status i st' reason now).jobs, P r' := by
  intro r' hr'
  obtain ⟨r, hr, rfl⟩ := List.mem_map.1 hr'
  exact h r hr

/-- Row-level transfer through `mark_company_jobs_as_missed`. -/
theorem forall_rows_mark {P : JobRow → Prop} {st : DBState} {cid' : ℕ}
    (h : ∀ r ∈ st.jobs, P (if r.company_id = cid' ∧ r.status = "active" then
      { r with missed_scrapes := r.missed_scrapes + 1 } else r)) :
    ∀ r' ∈ (st.mark_company_jobs_as_missed cid').jobs, P r' := by
  intro r' hr'
  obtain ⟨r, hr, rfl⟩ := List.mem_map.1 hr'
  exact h r hr

/-- Row-level transfer through the `INSERT` of `save_job`. -/
theorem forall_rows_append {P : JobRow → Prop} {l : List JobRow} {nr : JobRow}
    (h : ∀ r ∈ l, P r) (hn : P nr) : ∀ r' ∈ l ++ [nr], P r' := by
  intro r' hr'
  rcases List.mem_append.1 hr' with h' | h'
  · exact h r' h'
  · rw [List.mem_singleton.1 h']
    exact hn

/-- The three shapes of one loop iteration for a valid observed job:
found-closed (reactivate), found-open, and not-found (insert). -/
theorem obsStep_cases (st : DBState) (cid now : ℕ) {j : JobData}
    (hvalid : j.job_id ≠ "") :
    (∃ m, st.findJob j.job_id cid = some m ∧ m.status = "closed" ∧
      st.obsStep cid now j =
        ((st.reactivate_job m.id now).update_job_last_seen j.job_id cid
          now).update_job_last_seen j.job_id cid now) ∨
    (∃ m, st.findJob j.job_id cid = some m ∧ m.status ≠ "closed" ∧
      st.obsStep cid now j =
        (st.update_job_last_seen j.job_id cid now).update_job_last_seen
          j.job_id cid now) ∨
    (st.findJob j.job_id cid = none ∧
      st.obsStep cid now j =
        (DBState.update_job_status
          { st with
              jobs := st.jobs ++
                [{ id := st.nextJobId, job_id := j.job_id, title := j.title
                   description := j.description, date_posted := j.date_posted
                   employment_type := j.employment_type, location := j.location
                   company_id := cid, url := j.url, timestamp := now
                   created_at := now, status := "active", last_seen := now
                   missed_scrapes := 0 }]
              nextJobId := st.nextJobId + 1 }
          st.nextJobId "active" "Initial posting" now).update_job_last_seen
          j.job_id cid now) := by
  unfold DBState.obsStep DBState.save_job
  have hv : (j.job_id = "") = False := by simp [hvalid]
  simp only [hv, if_false]
  cases hfind : st.findJob j.job_id cid with
  | none =>
      right; right
      refine ⟨rfl, ?_⟩
      simp
  | some m =>
      dsimp only
      by_cases hclosed : m.status = "closed"
      · left
        refine ⟨m, rfl, hclosed, ?_⟩
        rw [if_pos hclosed]
        simp
      · right; left
        refine ⟨m, rfl, hclosed, ?_⟩
        rw [if_neg hclosed]
        simp

theorem findJob_append (st : DBState) (nr : JobRow) (k : ℕ) (jid : String)
    (cid : ℕ) :
    DBState.findJob { st with jobs := st.jobs ++ [nr], nextJobId := k } jid cid =
      (st.findJob jid cid).or
        (if nr.job_id = jid ∧ nr.company_id = cid then some nr else none) := by
  show (st.jobs ++ [nr]).find? _ = _
  rw [List.find?_append]
  congr 1
  by_cases h : nr.job_id = jid ∧ nr.company_id = cid <;>
    simp [List.find?_cons, h]

/-- Facts about the row returned by `findJob`. -/
theorem findJob_mem {st : DBState} {jid : String} {cid : ℕ} {m : JobRow}
    (h : st.findJob jid cid = some m) :
    m ∈ st.jobs ∧ m.job_id = jid ∧ m.company_id = cid := by
  refine ⟨List.mem_of_find?_eq_some h, ?_⟩
  have := List.find?_some h
  simpa using this

/-- Invariant P1 through one loop iteration: active rows of the company
keep job ids among the observed valid ids. -/
theorem obsStep_P1 {st : DBState} (hWF : st.WF) {cid now : ℕ} {j : JobData}
    {V : List String} (hjV : j.job_id = "" ∨ j.job_id ∈ V)
    (hP1 : ∀ r ∈ st.jobs, r.company_id = cid → r.status = "active" →
      r.job_id ∈ V) :
    ∀ r' ∈ (st.obsStep cid now j).jobs,
      r'.company_id = cid → r'.status = "active" → r'.job_id ∈ V := by
  by_cases hvalid : j.job_id = ""
  · rw [obsStep_invalid hvalid]
    exact hP1
  · have hjV' : j.job_id ∈ V := hjV.resolve_left hvalid
    rcases obsStep_cases st cid now hvalid with
      ⟨m, hfind, hclosed, heq⟩ | ⟨m, hfind, hclosed, heq⟩ | ⟨hfind, heq⟩
    · rcases findJob_mem hfind with ⟨hmmem, hmjid, hmcid⟩
      rw [heq, DBState.reactivate_job]
      apply forall_rows_update_last_seen
      apply forall_rows_update_last_seen
      apply forall_rows_update_job_status
      intro r hr
      by_cases hid : r.id = m.id
      · have hrm : r = m := WF_id_unique hWF hr hmmem hid
        simp [hid, hrm, hmjid, hmcid, hjV']
      · by_cases hcond : r.job_id = j.job_id ∧ r.company_id = cid
        · simp [hid, hcond]
          intro
          exact hjV'
        · simp [hid, hcond]
          exact hP1 r hr
    · rw [heq]
      apply forall_rows_update_last_seen
      apply forall_rows_update_last_seen
      intro r hr
      by_cases hcond : r.job_id = j.job_id ∧ r.company_id = cid
      · simp [hcond]
        intro
        exact hjV'
      · simp [hcond]
        exact hP1 r hr
    · rw [heq]
      apply forall_rows_update_last_seen
      apply forall_rows_update_job_status
      apply forall_rows_append
      · intro r hr
        have hfresh : ¬ r.id = st.nextJobId := by
          have := hWF.2 r hr
          omega
        by_cases hcond : r.job_id = j.job_id ∧ r.company_id = cid
        · simp [hfresh, hcond]
          intro
          exact hjV'
        · simp [hfresh, hcond]
          exact hP1 r hr
      · simp [hjV']

/-- Invariant P2 through one loop iteration (valid observed job): active
rows of the company either have a zero counter or are still to be
observed. -/
theorem obsStep_P2 {st : DBState} (hWF : st.WF) {cid now : ℕ} {j : JobData}
    (hvalid : j.job_id ≠ "") {V2 : List String}
    (hP2 : ∀ r ∈ st.jobs, r.company_id = cid → r.status = "active" →
      (r.missed_scrapes = 0 ∨ r.job_id = j.job_id ∨ r.job_id ∈ V2)) :
    ∀ r' ∈ (st.obsStep cid now j).jobs,
      r'.company_id = cid → r'.status = "active" →
        (r'.missed_scrapes = 0 ∨ r'.job_id ∈ V2) := by
  rcases obsStep_cases st cid now hvalid with
    ⟨m, hfind, hclosed, heq⟩ | ⟨m, hfind, hclosed, heq⟩ | ⟨hfind, heq⟩
  · rcases findJob_mem hfind with ⟨hmmem, hmjid, hmcid⟩
    rw [heq, DBState.reactivate_job]
    apply forall_rows_update_last_seen
    apply forall_rows_update_last_seen
    apply forall_rows_update_job_status
    intro r hr
    by_cases hid : r.id = m.id
    · have hrm : r = m := WF_id_unique hWF hr hmmem hid
      simp [hid, hrm, hmjid, hmcid]
    · by_cases hcond : r.job_id = j.job_id ∧ r.company_id = cid
      · simp [hid, hcond]
      · simp [hid, hcond]
        intro hcid hact
        rcases hP2 r hr hcid hact with h | h | h
        · exact Or.inl h
        · exact absurd ⟨h, hcid⟩ hcond
        · exact Or.inr h
  · rw [heq]
    apply forall_rows_update_last_seen
    apply forall_rows_update_last_seen
    intro r hr
    by_cases hcond : r.job_id = j.job_id ∧ r.company_id = cid
    · simp [hcond]
    · simp [hcond]
      intro hcid hact
      rcases hP2 r hr hcid hact with h | h | h
      · exact Or.inl h
      · exact absurd ⟨h, hcid⟩ hcond
      · exact Or.inr h
  · rw [heq]
    apply forall_rows_update_last_seen
    apply forall_rows_update_job_status
    apply forall_rows_append
    · intro r hr
      have hfresh : ¬ r.id = st.nextJobId := by
        have := hWF.2 r hr
        omega
      by_cases hcond : r.job_id = j.job_id ∧ r.company_id = cid
      · simp [hfresh, hcond]
      · simp [hfresh, hcond]
        intro hcid hact
        rcases hP2 r hr hcid hact with h | h | h
        · exact Or.inl h
        · exact absurd ⟨h, hcid⟩ hcond
        · exact Or.inr h
    · simp

/-- A found, non-closed first match survives one loop iteration (for any
job id). -/
theorem obsStep_notClosed {st : DBState} (hWF : st.WF) (cid now : ℕ)
    (j : JobData) {jid : String}
    (h : ∃ m, st.findJob jid cid = some m ∧ m.status ≠ "closed") :
    ∃ m, (st.obsStep cid now j).findJob jid cid = some m ∧
      m.status ≠ "closed" := by
  by_cases hvalid : j.job_id = ""
  · rw [obsStep_invalid hvalid]
    exact h
  · rcases obsStep_cases st cid now hvalid with
      ⟨m, hfind, hclosed, heq⟩ | ⟨m, hfind, hclosed, heq⟩ | ⟨hfind, heq⟩
    · rw [heq, DBState.reactivate_job]
      exact findJob_notClosed_update_last_seen _ _ _
        (findJob_notClosed_update_last_seen _ _ _
          (findJob_notClosed_update_active _ _ _ h))
    · rw [heq]
      exact findJob_notClosed_update_last_seen _ _ _
        (findJob_notClosed_update_last_seen _ _ _ h)
    · rw [heq]
      apply findJob_notClosed_update_last_seen
      apply findJob_notClosed_update_active
      rcases h with ⟨m, hm, hnc⟩
      refine ⟨m, ?_, hnc⟩
      rw [findJob_append, hm]
      rfl

/-- After a loop iteration for a valid observed job, its first match
exists and is not closed. -/
theorem obsStep_notClosed_self (st : DBState) (cid now : ℕ) {j : JobData}
    (hvalid : j.job_id ≠ "") :
    ∃ m, (st.obsStep cid now j).findJob j.job_id cid = some m ∧
      m.status ≠ "closed" := by
  rcases obsStep_cases st cid now hvalid with
    ⟨m, hfind, hclosed, heq⟩ | ⟨m, hfind, hclosed, heq⟩ | ⟨hfind, heq⟩
  · rw [heq, DBState.reactivate_job]
    apply findJob_notClosed_update_last_seen
    apply findJob_notClosed_update_last_seen
    rw [findJob_update_job_status, hfind]
    refine ⟨_, rfl, ?_⟩
    simp
  · rw [heq]
    exact findJob_notClosed_update_last_seen _ _ _
      (findJob_notClosed_update_last_seen _ _ _ ⟨m, hfind, hclosed⟩)
  · rw [heq]
    apply findJob_notClosed_update_last_seen
    apply findJob_notClosed_update_active
    rw [findJob_append, hfind, Option.none_or, if_pos ⟨rfl, rfl⟩]
    refine ⟨_, rfl, ?_⟩
    simp

/-- The master invariant of the per-job loop: after folding over all
observed jobs, (1) the state is well-formed, (2) active rows of the
company carry observed job ids, (3) active rows of the company have a
zero missed counter, (4) non-closed first matches survive, and (5) every
valid observed job has a non-closed first match. -/
theorem obs_fold_master (cid now : ℕ) (V : List String) :
    ∀ (R : List JobData) (st : DBState),
      st.WF →
      (∀ j ∈ R, j.job_id = "" ∨ j.job_id ∈ V) →
      (∀ r ∈ st.jobs, r.company_id = cid → r.status = "active" →
        r.job_id ∈ V) →
      (∀ r ∈ st.jobs, r.company_id = cid → r.status = "active" →
        (r.missed_scrapes = 0 ∨ r.job_id ∈ validIds R)) →
      (R.foldl (DBState.obsStep cid now) st).WF ∧
      (∀ r' ∈ (R.foldl (DBState.obsStep cid now) st).jobs,
        r'.company_id = cid → r'.status = "active" → r'.job_id ∈ V) ∧
      (∀ r' ∈ (R.foldl (DBState.obsStep cid now) st).jobs,
        r'.company_id = cid → r'.status = "active" → r'.missed_scrapes = 0) ∧
      (∀ jid : String,
        (∃ m, st.findJob jid cid = some m ∧ m.status ≠ "closed") →
        ∃ m, (R.foldl (DBState.obsStep cid now) st).findJob jid cid = some m ∧
          m.status ≠ "closed") ∧
      (∀ j ∈ R, j.job_id ≠ "" →
        ∃ m, (R.foldl (DBState.obsStep cid now) st).findJob j.job_id cid =
          some m ∧ m.status ≠ "closed") := by
  intro R
  induction R with
  | nil =>
      intro st hWF _ hP1 hP2
      refine ⟨hWF, hP1, ?_, fun jid h => h, by simp⟩
      intro r hr hcid hact
      rcases hP2 r hr hcid hact with h | h
      · exact h
      · exact absurd h (by simp [validIds])
  | cons j R' ih =>
      intro st hWF hjV hP1 hP2
      rw [List.foldl_cons]
      by_cases hvalid : j.job_id = ""
      · rw [obsStep_invalid hvalid]
        have hrec := ih st hWF (fun j' hj' => hjV j' (by simp [hj'])) hP1
          (fun r hr h1 h2 => by
            rcases hP2 r hr h1 h2 with h | h
            · exact Or.inl h
            · rw [validIds_cons_invalid hvalid] at h
              exact Or.inr h)
        refine ⟨hrec.1, hrec.2.1, hrec.2.2.1, hrec.2.2.2.1, ?_⟩
        intro j' hj'
        rcases List.mem_cons.1 hj' with h | h
        · subst h
          intro hne
          exact absurd hvalid hne
        · exact hrec.2.2.2.2 j' h
      · have hWF₁ := WF_obsStep st hWF cid now j
        have hP1₁ := @obsStep_P1 st hWF cid now j V (hjV j (by simp)) hP1
        have hP2₁ := @obsStep_P2 st hWF cid now j hvalid (validIds R')
          (fun r hr h1 h2 => by
            rcases hP2 r hr h1 h2 with h | h
            · exact Or.inl h
            · rw [validIds_cons_valid hvalid] at h
              rcases List.mem_cons.1 h with h | h
              · exact Or.inr (Or.inl h)
              · exact Or.inr (Or.inr h))
        have hrec := ih (st.obsStep cid now j) hWF₁
          (fun j' hj' => hjV j' (by simp [hj'])) hP1₁ hP2₁
        refine ⟨hrec.1, hrec.2.1, hrec.2.2.1, ?_, ?_⟩
        · intro jid h
          exact hrec.2.2.2.1 jid (obsStep_notClosed hWF cid now j h)
        · intro j' hj'
          rcases List.mem_cons.1 hj' with h | h
          · subst h
            intro hne
            exact hrec.2.2.2.1 j'.job_id (obsStep_notClosed_self st cid now hne)
          · exact hrec.2.2.2.2 j' h

/-- Second-run preservation: when every valid observed job already has a
non-closed first match, the per-job loop appends no history and changes no
status. -/
theorem obs_fold_run2 (cid now : ℕ) :
    ∀ (R : List JobData) (st : DBState), st.WF →
      (∀ j ∈ R, j.job_id = "" ∨
        ∃ m, st.findJob j.job_id cid = some m ∧ m.status ≠ "closed") →
      ((R.foldl (DBState.obsStep cid now) st).history = st.history ∧
       (R.foldl (DBState.obsStep cid now) st).jobs.map
          (fun r => (r.id, r.status)) =
         st.jobs.map (fun r => (r.id, r.status))) := by
  intro R
  induction R with
  | nil => intro st _ _; exact ⟨rfl, rfl⟩
  | cons j R' ih =>
      intro st hWF hobs
      rw [List.foldl_cons]
      by_cases hvalid : j.job_id = ""
      · rw [obsStep_invalid hvalid]
        exact ih st hWF (fun j' hj' => hobs j' (by simp [hj']))
      · rcases (hobs j (by simp)).resolve_left hvalid with ⟨m, hfind, hnc⟩
        have hstep : st.obsStep cid now j =
            (st.update_job_last_seen j.job_id cid now).update_job_last_seen
              j.job_id cid now := by
          rcases obsStep_cases st cid now hvalid with
            ⟨m', hfind', hclosed', heq⟩ | ⟨m', hfind', hclosed', heq⟩ |
            ⟨hfind', heq⟩
          · rw [hfind] at hfind'
            have : m = m' := by
              have := Option.some.inj hfind'
              rw [this]
            rw [← this] at hclosed'
            exact absurd hclosed' hnc
          · exact heq
          · rw [hfind] at hfind'
            exact absurd hfind' (by simp)
        have hrec := ih (st.obsStep cid now j) (WF_obsStep st hWF cid now j)
          (fun j' hj' => by
            rcases hobs j' (by simp [hj']) with h | h
            · exact Or.inl h
            · exact Or.inr (obsStep_notClosed hWF cid now j h))
        constructor
        · rw [hrec.1, hstep]
          rfl
        · rw [hrec.2, hstep, idStatus_update_last_seen,
            idStatus_update_last_seen]

theorem jobs_get_or_create (s : DBState) (c url : String) (now : ℕ) :
    (s.get_or_create_company c url now).2.jobs = s.jobs := by
  unfold DBState.get_or_create_company
  split <;> rfl

theorem mem_validIds {J : List JobData} {j : JobData} (hj : j ∈ J)
    (hv : j.job_id ≠ "") : j.job_id ∈ validIds J :=
  List.mem_map_of_mem _ (List.mem_filter.2 ⟨hj, by simpa using hv⟩)

/-- What one single-company run guarantees when every active row of the
company is among the observed jobs: well-formedness, the P1 invariant, a
non-closed first match for every valid observed job, and a stable company
lookup. -/
theorem first_run_facts (s : DBState) (hWF : s.WF) (c : String)
    (J : List JobData)
    (hobs : ∀ r ∈ s.jobs, r.company_id = s.companyIdFor c →
      r.status = "active" → r.job_id ∈ validIds J) (now : ℕ) :
    (s.save_company_jobs c J now).2.2.WF ∧
    (∀ r ∈ (s.save_company_jobs c J now).2.2.jobs,
      r.company_id = s.companyIdFor c → r.status = "active" →
        r.job_id ∈ validIds J) ∧
    (∀ j ∈ J, j.job_id ≠ "" →
      ∃ m, (s.save_company_jobs c J now).2.2.findJob j.job_id
        (s.companyIdFor c) = some m ∧ m.status ≠ "closed") ∧
    (s.save_company_jobs c J now).2.2.lookupCompany c =
      some (s.companyIdFor c) ∧
    (s.save_company_jobs c J now).2.2.companyIdFor c = s.companyIdFor c := by
  have hmemV : ∀ j ∈ J, j.job_id = "" ∨ j.job_id ∈ validIds J := by
    intro j hj
    by_cases h : j.job_id = ""
    · exact Or.inl h
    · exact Or.inr (mem_validIds hj h)
  rw [save_company_jobs_state]
  have hWFg : (s.get_or_create_company c
      ((J.head?.map (·.company_url)).getD "") now).2.WF :=
    WF_get_or_create s hWF _ _ _
  have hWFm : ((s.get_or_create_company c
      ((J.head?.map (·.company_url)).getD "") now).2.mark_company_jobs_as_missed
      (s.companyIdFor c)).WF := WF_mark _ hWFg _
  have hP1m : ∀ r ∈ ((s.get_or_create_company c
      ((J.head?.map (·.company_url)).getD "")
      now).2.mark_company_jobs_as_missed (s.companyIdFor c)).jobs,
      r.company_id = s.companyIdFor c → r.status = "active" →
        r.job_id ∈ validIds J := by
    apply forall_rows_mark
    rw [jobs_get_or_create]
    intro r hr
    by_cases hcond : r.company_id = s.companyIdFor c ∧ r.status = "active"
    · rw [if_pos hcond]
      exact fun h1 h2 => hobs r hr hcond.1 hcond.2
    · rw [if_neg hcond]
      exact hobs r hr
  have hmaster := obs_fold_master (s.companyIdFor c) now (validIds J) J _
    hWFm hmemV hP1m (fun r hr h1 h2 => Or.inr (hP1m r hr h1 h2))
  rw [mark_stale_empty hmaster.2.2.1 now]
  have hlookup : (J.foldl (DBState.obsStep (s.companyIdFor c) now)
      ((s.get_or_create_company c ((J.head?.map (·.company_url)).getD "")
        now).2.mark_company_jobs_as_missed
        (s.companyIdFor c))).lookupCompany c = some (s.companyIdFor c) := by
    have hcompeq : (J.foldl (DBState.obsStep (s.companyIdFor c) now)
        ((s.get_or_create_company c ((J.head?.map (·.company_url)).getD "")
          now).2.mark_company_jobs_as_missed (s.companyIdFor c))).companies =
        (s.get_or_create_company c ((J.head?.map (·.company_url)).getD "")
          now).2.companies := by
      rw [companies_obs_fold, companies_mark]
    rw [lookupCompany_eq_of_companies c hcompeq]
    exact lookupCompany_get_or_create s c _ now
  exact ⟨hmaster.1, hmaster.2.1,
    fun j hj hv => hmaster.2.2.2.2 j hj hv, hlookup, companyIdFor_eq hlookup⟩

/-- A single-company run on a state where every active row of the company
is observed and every valid observed job already has a non-closed first
match: the run appends no history entry and changes no status. -/
theorem second_run_quiet (sA : DBState) (hWF : sA.WF) (c : String)
    (J : List JobData)
    (hP1 : ∀ r ∈ sA.jobs, r.company_id = sA.companyIdFor c →
      r.status = "active" → r.job_id ∈ validIds J)
    (hself : ∀ j ∈ J, j.job_id ≠ "" →
      ∃ m, sA.findJob j.job_id (sA.companyIdFor c) = some m ∧
        m.status ≠ "closed")
    (hlookup : sA.lookupCompany c = some (sA.companyIdFor c)) (now₂ : ℕ) :
    (sA.save_company_jobs c J now₂).2.2.history = sA.history ∧
    (sA.save_company_jobs c J now₂).2.2.jobs.map (fun r => (r.id, r.status)) =
      sA.jobs.map (fun r => (r.id, r.status)) := by
  have hmemV : ∀ j ∈ J, j.job_id = "" ∨ j.job_id ∈ validIds J := by
    intro j hj
    by_cases h : j.job_id = ""
    · exact Or.inl h
    · exact Or.inr (mem_validIds hj h)
  rw [save_company_jobs_state]
  have hgoc : (sA.get_or_create_company c
      ((J.head?.map (·.company_url)).getD "") now₂).2 = sA := by
    rw [get_or_create_found hlookup]
  rw [hgoc]
  have hWFm : (sA.mark_company_jobs_as_missed (sA.companyIdFor c)).WF :=
    WF_mark _ hWF _
  have hP1m : ∀ r ∈ (sA.mark_company_jobs_as_missed (sA.companyIdFor c)).jobs,
      r.company_id = sA.companyIdFor c → r.status = "active" →
        r.job_id ∈ validIds J := by
    apply forall_rows_mark
    intro r hr
    by_cases hcond : r.company_id = sA.companyIdFor c ∧ r.status = "active"
    · rw [if_pos hcond]
      exact fun h1 h2 => hP1 r hr hcond.1 hcond.2
    · rw [if_neg hcond]
      exact hP1 r hr
  have hobs₂ : ∀ j ∈ J, j.job_id = "" ∨
      ∃ m, (sA.mark_company_jobs_as_missed (sA.companyIdFor c)).findJob
        j.job_id (sA.companyIdFor c) = some m ∧ m.status ≠ "closed" := by
    intro j hj
    by_cases hv : j.job_id = ""
    · exact Or.inl hv
    · exact Or.inr (findJob_notClosed_mark _ (hself j hj hv))
  have hpres := obs_fold_run2 (sA.companyIdFor c) now₂ J _ hWFm hobs₂
  have hmaster := obs_fold_master (sA.companyIdFor c) now₂ (validIds J) J _
    hWFm hmemV hP1m (fun r hr h1 h2 => Or.inr (hP1m r hr h1 h2))
  rw [mark_stale_empty hmaster.2.2.1 now₂]
  constructor
  · rw [hpres.1]
    exact history_mark sA _
  · rw [hpres.2]
    exact idStatus_mark sA _

/-- C1 (counterexample to the claim as stated): the repository's own test
scenario.  Start from empty, observe `J1` and `J2`, then run
`save_jobs [J1]` twice in immediate succession.  The second identical call
closes `J2` (its missed counter reaches 2) and appends a history entry, so
the second run is not transition-free. -/
theorem C1_counterexample :
    ((((DBState.empty.save_jobs
        [⟨"J1", "t1", "", "", "", "", "acme", "http://a", "u1"⟩,
         ⟨"J2", "t2", "", "", "", "", "acme", "http://a", "u2"⟩] 0).2.2.save_jobs
        [⟨"J1", "t1", "", "", "", "", "acme", "http://a", "u1"⟩] 1).2.2).statusOf 2 =
      some "active") ∧
    (((((DBState.empty.save_jobs
        [⟨"J1", "t1", "", "", "", "", "acme", "http://a", "u1"⟩,
         ⟨"J2", "t2", "", "", "", "", "acme", "http://a", "u2"⟩] 0).2.2.save_jobs
        [⟨"J1", "t1", "", "", "", "", "acme", "http://a", "u1"⟩] 1).2.2.save_jobs
        [⟨"J1", "t1", "", "", "", "", "acme", "http://a", "u1"⟩] 2).2.2).statusOf 2 =
      some "closed") ∧
    ((((DBState.empty.save_jobs
        [⟨"J1", "t1", "", "", "", "", "acme", "http://a", "u1"⟩,
         ⟨"J2", "t2", "", "", "", "", "acme", "http://a", "u2"⟩] 0).2.2.save_jobs
        [⟨"J1", "t1", "", "", "", "", "acme", "http://a", "u1"⟩] 1).2.2.save_jobs
        [⟨"J1", "t1", "", "", "", "", "acme", "http://a", "u1"⟩] 2).2.2.history.length =
      ((DBState.empty.save_jobs
        [⟨"J1", "t1", "", "", "", "", "acme", "http://a", "u1"⟩,
         ⟨"J2", "t2", "", "", "", "", "acme", "http://a", "u2"⟩] 0).2.2.save_jobs
        [⟨"J1", "t1", "", "", "", "", "acme", "http://a", "u1"⟩] 1).2.2.history.length + 1) := by
  refine ⟨?_, ?_, ?_⟩ <;> decide

/-- C1.  Amended: running `save_jobs` twice in immediate succession with
the identical single-company observed list produces zero additional status
transitions on the second call — no row changes status and no history
entry is appended — *provided* every record of that company that is active
before the first run appears among the (valid) observed jobs.  Without
that proviso the second run may close active unobserved records, as their
missed counter reaches the threshold (see the counterexample). -/
theorem C1_second_run_idempotent (s : DBState) (hWF : s.WF) (c : String)
    (hc : c ≠ "") (J : List JobData) (hJc : ∀ j ∈ J, j.company = c)
    (hobs : ∀ r ∈ s.jobs, r.company_id = s.companyIdFor c →
      r.status = "active" → r.job_id ∈ validIds J) (now₁ now₂ : ℕ) :
    ((s.save_jobs J now₁).2.2.save_jobs J now₂).2.2.history =
      (s.save_jobs J now₁).2.2.history ∧
    ((s.save_jobs J now₁).2.2.save_jobs J now₂).2.2.jobs.map
        (fun r => (r.id, r.status)) =
      (s.save_jobs J now₁).2.2.jobs.map (fun r => (r.id, r.status)) := by
  by_cases hJne : J = []
  · subst hJne
    have h : ∀ (t : DBState) (now : ℕ),
        (t.save_jobs ([] : List JobData) now).2.2 = t := by
      intro t now
      rw [save_jobs_state]
      rfl
    rw [h, h]
    exact ⟨rfl, rfl⟩
  · rw [save_jobs_single_company s hc hJc hJne now₁,
      save_jobs_single_company _ hc hJc hJne now₂]
    obtain ⟨hWFA, hP1A, hselfA, hlookupA, hcidA⟩ :=
      first_run_facts s hWF c J hobs now₁
    exact second_run_quiet _ hWFA c J
      (fun r hr h1 h2 => hP1A r hr (by rw [← hcidA]; exact h1) h2)
      (fun j hj hv => by rw [hcidA]; exact hselfA j hj hv)
      (by rw [hcidA]; exact hlookupA) now₂

/-- C1 (witness): observing the same two jobs twice from a fresh database
— all active records observed — leaves history and statuses untouched on
the second call. -/
theorem C1_second_run_idempotent_witness :
    (((DBState.empty.save_jobs
        [⟨"J1", "t1", "", "", "", "", "acme", "http://a", "u1"⟩,
         ⟨"J2", "t2", "", "", "", "", "acme", "http://a", "u2"⟩] 0).2.2.save_jobs
        [⟨"J1", "t1", "", "", "", "", "acme", "http://a", "u1"⟩,
         ⟨"J2", "t2", "", "", "", "", "acme", "http://a", "u2"⟩] 1).2.2.history =
      (DBState.empty.save_jobs
        [⟨"J1", "t1", "", "", "", "", "acme", "http://a", "u1"⟩,
         ⟨"J2", "t2", "", "", "", "", "acme", "http://a", "u2"⟩] 0).2.2.history) ∧
    ((DBState.empty.save_jobs
        [⟨"J1", "t1", "", "", "", "", "acme", "http://a", "u1"⟩,
         ⟨"J2", "t2", "", "", "", "", "acme", "http://a", "u2"⟩] 0).2.2.save_jobs
        [⟨"J1", "t1", "", "", "", "", "acme", "http://a", "u1"⟩,
         ⟨"J2", "t2", "", "", "", "", "acme", "http://a", "u2"⟩] 1).2.2.jobs.map
        (fun r => (r.id, r.status)) =
      (DBState.empty.save_jobs
        [⟨"J1", "t1", "", "", "", "", "acme", "http://a", "u1"⟩,
         ⟨"J2", "t2", "", "", "", "", "acme", "http://a", "u2"⟩] 0).2.2.jobs.map
        (fun r => (r.id, r.status)) :=
  C1_second_run_idempotent DBState.empty (by decide) "acme" (by decide)
    [⟨"J1", "t1", "", "", "", "", "acme", "http://a", "u1"⟩,
     ⟨"J2", "t2", "", "", "", "", "acme", "http://a", "u2"⟩]
    (by decide) (by decide) 0 1

end WorkdayScraper
